import Mathlib

/-
  Verification of the Evicta cache decision engine.

  Shallow embedding of the Python sources:
    src/app/core/cache_store.py   (entry store, reverse indices, LRU order, eviction)
    src/app/core/cache.py         (normalization, decision procedure, write path)
    src/app/intent/rule_intent.py (rule based intent extraction and confidence scoring)

  Modelling conventions:
  - Python dicts whose keys are unbounded (the four index dicts) are modelled as
    functions into Option; the authoritative OrderedDict of entries is modelled as an
    association list whose order is the recency (LRU) order, head oldest.
  - Python floats are modelled as rationals; time.time() is an explicit parameter.
  - uuid4 generated entry ids are explicit parameters, assumed fresh and nonempty
    where the corresponding Python code relies on uuid freshness.
  - Regex matching is modelled by bespoke matchers faithful to the backtracking
    semantics of the concrete patterns in rule_intent.py on the inputs the engine
    feeds them (lowercased, stripped text; the cache paths feed whitespace
    collapsed text).
-/

namespace Evicta

/-! ### Python string primitives -/

/-- ASCII model of the Python whitespace class used by str.split, str.strip and
regex class backslash-s. -/
def pyIsWS (c : Char) : Bool :=
  c = ' ' || c = '\t' || c = '\n' || c = '\r' || c = '\x0b' || c = '\x0c'

/-- Model of str.lower, exact on ASCII input. -/
def pyLower (s : String) : String := String.mk (s.data.map Char.toLower)

/-- Model of str.strip with no arguments. -/
def pyStrip (s : String) : String :=
  String.mk (((s.data.dropWhile pyIsWS).reverse.dropWhile pyIsWS).reverse)

theorem length_dropWhile_le {α : Type} (p : α → Bool) (l : List α) :
    (l.dropWhile p).length ≤ l.length := by
  induction l with
  | nil => simp [List.dropWhile]
  | cons a l ih =>
    by_cases h : p a
    · simp only [List.dropWhile, h]
      exact Nat.le_succ_of_le ih
    · simp only [List.dropWhile, h]
      simp

/-- Worker for pySplit: splits a character list on runs of whitespace,
producing the nonempty words in order; the current word is accumulated in
reverse. Structural recursion, so concrete evaluations reduce in the kernel. -/
def pySplitGo (cur : List Char) : List Char → List String
  | [] => if cur.isEmpty then [] else [String.mk cur.reverse]
  | c :: rest =>
    if pyIsWS c then
      if cur.isEmpty then pySplitGo [] rest
      else String.mk cur.reverse :: pySplitGo [] rest
    else pySplitGo (c :: cur) rest

/-- Model of str.split with no arguments: whitespace separated words, no empties. -/
def pySplit (s : String) : List String := pySplitGo [] s.data

/-- Join a list of words with single spaces, the join method of the one space
string. -/
def joinWithSpace : List String → String
  | [] => ""
  | [w] => w
  | w :: rest => w ++ " " ++ joinWithSpace rest

/-- The idiom space.join(s.split()) used throughout the sources to collapse
whitespace runs to single spaces and trim the ends. -/
def collapse (s : String) : String := joinWithSpace (pySplit s)

/-- Partial model of the Unicode Cf (format) character class tested by clean in
src/app/core/cache.py line 43. No ASCII character is in Cf, so the model is exact
on ASCII input; a representative set of the common format characters is included. -/
def isFormatChar (c : Char) : Bool :=
  c.val = 0xAD || (0x200B ≤ c.val && c.val ≤ 0x200F)
    || (0x2060 ≤ c.val && c.val ≤ 0x2064) || c.val = 0xFEFF

/-- clean from src/app/core/cache.py lines 25 to 46: remove format characters,
lowercase, collapse whitespace. -/
def clean (prompt : String) : String :=
  collapse (pyLower (String.mk (prompt.data.filter (fun c => !isFormatChar c))))

/-- should_try_intent from src/app/core/cache.py lines 276 to 289. -/
def should_try_intent (prompt : String) : Bool :=
  if prompt.length > 80 then false
  else if prompt.data.any Char.isDigit then false
  else if prompt.data.contains '\n' then false
  else true

/-! ### Intent extraction, from src/app/intent/rule_intent.py -/

/-- Modelled from the spec: the IntentResult record produced by the intent
extractor. Its class is imported in src/app/intent/rule_intent.py line 22 from
app.types.cache_decision but is defined nowhere under src; section 4.2 of the
spec gives its shape as a record with fields intent, subject, confidence and
source. Equality is componentwise, the most permissive reading that lets the
engine use these values as dictionary keys at all. -/
structure IntentResult where
  intent : String
  subject : String
  confidence : ℚ
  source : String
deriving DecidableEq, Repr

/-- INTENT_BASE_CONFIDENCE table, rule_intent.py lines 67 to 79. Note that
ToolRecommendation is absent from the table. -/
def INTENT_BASE_CONFIDENCE : List (String × ℚ) :=
  [("DifferenceBetween", 95/100),
   ("InstallSetup", 90/100),
   ("HowToGuide", 88/100),
   ("DefineConcept", 85/100),
   ("ExplainConcept", 80/100),
   ("WriteCode", 85/100),
   ("DebugError", 90/100),
   ("TroubleshootIssue", 70/100),
   ("FindResource", 65/100),
   ("CreativeGeneration", 75/100),
   ("SummarizeText", 85/100)]

/-- NOISE_PENALTY, rule_intent.py line 106. -/
def NOISE_PENALTY : ℚ := 5/100

/-- The generic subject set of subject_specificity, rule_intent.py line 207. -/
def generic_subjects : List String := ["it", "this", "that", "something", "error", "issue"]

/-- subject_specificity, rule_intent.py lines 203 to 212. -/
def subject_specificity (subject : String) : ℚ :=
  let n := (pySplit subject).length
  if subject ∈ generic_subjects then 4/10
  else min 1 (6/10 + (1/10) * (n : ℚ))

/-- pattern_strength, rule_intent.py lines 215 to 220; the argument is the
regex source text of the matching pattern. -/
def pattern_strength (pattern : String) : ℚ :=
  if pattern.length > 70 then 1
  else if pattern.length > 40 then 9/10
  else 8/10

/-- Round half to even on integers scaled by 100, the behavior of the Python
builtin round(x, 2) read over exact rationals. -/
def roundHalfEven (q : ℚ) : ℤ :=
  let f := ⌊q⌋
  let r := q - (f : ℚ)
  if r < 1/2 then f
  else if 1/2 < r then f + 1
  else if f % 2 = 0 then f else f + 1

/-- Model of round(x, 2). -/
def pyRound2 (q : ℚ) : ℚ := (roundHalfEven (q * 100) : ℚ) / 100

/-- compute_confidence, rule_intent.py lines 223 to 232. -/
def compute_confidence (intent subject pattern : String) (noise_removed : Bool) : ℚ :=
  let score := ((INTENT_BASE_CONFIDENCE.lookup intent).getD (7/10))
  let score := score * subject_specificity subject
  let score := score * pattern_strength pattern
  let score := if noise_removed then score - NOISE_PENALTY else score
  pyRound2 (max 0 (min score 1))

/-- canonical_pair, rule_intent.py lines 127 to 130: collapse both phrases and
join the two element ascending sort with a single space. The Python sorted on a
two element list swaps exactly when the second compares less than the first. -/
def canonical_pair (a b : String) : String :=
  let a := collapse a
  let b := collapse b
  if b < a then b ++ " " ++ a else a ++ " " ++ b

/-- A noise sub pattern of NOISE_PATTERNS: regex of shape word boundary, base
text, optional suffix in a group, word boundary. -/
structure NoisePat where
  base : String
  opt : Option String
deriving Repr

/-- NOISE_PATTERNS table, rule_intent.py lines 81 to 103. The two patterns with
an optional group are with example(s) and on mac(os). -/
def NOISE_PATTERNS : List (String × List NoisePat) :=
  [("DefineConcept",
    [⟨"meaning", none⟩, ⟨"overview", none⟩, ⟨"basics", none⟩,
     ⟨"in simple terms", none⟩, ⟨"with example", some "s"⟩]),
   ("ExplainConcept",
    [⟨"in simple terms", none⟩, ⟨"with example", some "s"⟩]),
   ("SummarizeText",
    [⟨"in simple words", none⟩, ⟨"short", none⟩]),
   ("InstallSetup",
    [⟨"on ubuntu", none⟩, ⟨"on linux", none⟩, ⟨"on mac", some "os"⟩,
     ⟨"on windows", none⟩])]

/-- ASCII model of the regex word class backslash-w. -/
def isWordChar (c : Char) : Bool := c.isAlpha || c.isDigit || c = '_'

/-- A word boundary holds before the current position given the previous
character, when the pattern text starts with a word character. -/
def bdryBefore (prev : Option Char) : Bool :=
  match prev with
  | none => true
  | some c => !isWordChar c

/-- A word boundary holds after a match ending before this remainder. -/
def bdryAfter : List Char → Bool
  | [] => true
  | c :: _ => !isWordChar c

/-- Try to match a noise pattern at the current position, returning the length
of the matched span. The optional suffix group is greedy, backtracking to the
bare base when the trailing boundary fails, exactly as the regex engine does. -/
def matchNoise (p : NoisePat) (prev : Option Char) (cs : List Char) : Option Nat :=
  if bdryBefore prev then
    let b := p.base.data
    let w := b ++ (p.opt.getD "").data
    if w.isPrefixOf cs && bdryAfter (cs.drop w.length) then some w.length
    else if b.isPrefixOf cs && bdryAfter (cs.drop b.length) then some b.length
    else none
  else none

/-- Worker of re.subn with empty replacement: scan left to right, delete each
nonoverlapping match, report whether any match was deleted. The previous
character is tracked for word boundary tests against the original text. The
first argument is fuel, at least the text length, making the recursion
structural; every step consumes at least one character. -/
def subnGo (p : NoisePat) : Nat → Option Char → List Char → List Char × Bool
  | 0, _, cs => (cs, false)
  | fuel + 1, prev, cs =>
    match cs with
    | [] => ([], false)
    | c :: rest =>
      match matchNoise p prev (c :: rest) with
      | some n =>
        let last := ((c :: rest).take n).getLast?
        let r := subnGo p fuel last (rest.drop (n - 1))
        (r.1, true)
      | none =>
        let r := subnGo p fuel (some c) rest
        (c :: r.1, r.2)

/-- normalize_subject loop body, rule_intent.py lines 108 to 123: apply each
noise pattern in order with re.subn, record whether any noise was removed. -/
def normalizeLoop : List NoisePat → String → Bool → String × Bool
  | [], subject, noise => (subject, noise)
  | p :: ps, subject, noise =>
    let r := subnGo p subject.data.length none subject.data
    if r.2 then normalizeLoop ps (String.mk r.1) true
    else normalizeLoop ps subject noise

/-- normalize_subject, rule_intent.py lines 108 to 123; the result subject is
whitespace collapsed. -/
def normalize_subject (intent subject : String) : String × Bool :=
  let r := normalizeLoop ((NOISE_PATTERNS.lookup intent).getD []) subject false
  (collapse r.1, r.2)

/-- Captured named groups of one regex match. -/
structure Groups where
  subject : Option String := none
  a : Option String := none
  b : Option String := none
  context : Option String := none

/-- Try the alternatives of a leading regex alternation in order; each
alternative is a literal; on a literal prefix match the continuation sees the
alternative text and the remainder, and a failing continuation backtracks to
the next alternative. -/
def firstAltG (k : String → List Char → Option Groups) :
    List String → List Char → Option Groups
  | [], _ => none
  | a :: rest, cs =>
    match (if a.data.isPrefixOf cs then k a (cs.drop a.data.length) else none) with
    | some g => some g
    | none => firstAltG k rest cs

/-- Match backslash-s plus followed by a nonempty greedy dot plus to the end:
the remainder must begin with whitespace and hold a nonempty tail after the
whitespace run. Exact on stripped text, where the remainder cannot be all
whitespace. -/
def afterAltSubject (rest : List Char) : Option (List Char) :=
  match rest with
  | c :: _ =>
    if pyIsWS c then
      let s := rest.dropWhile pyIsWS
      if s.isEmpty then none else some s
    else none
  | [] => none

/-- Matcher for the pattern shape caret, literal alternation, backslash-s plus,
named subject dot plus, dollar. -/
def prefixSubjectMatch (alts : List String) (text : List Char) : Option Groups :=
  firstAltG (fun _ rest => (afterAltSubject rest).map
    (fun s => { subject := some (String.mk s) })) alts text

/-- Test whether the remainder after a lazily growing subject consists exactly
of a whitespace run followed by one of the terminal alternatives, to the end. -/
def sepToEnd (alts : List String) (cs : List Char) : Bool :=
  match cs with
  | c :: _ => pyIsWS c && alts.any (fun a => cs.dropWhile pyIsWS == a.data)
  | [] => false

/-- Worker for the TroubleshootIssue first pattern: lazy nonempty subject, then
whitespace, then a terminal alternative at the end of the text. -/
def suffixGo (alts : List String) : List Char → List Char → Option (List Char)
  | _, [] => none
  | acc, c :: rest =>
    let acc := acc ++ [c]
    if sepToEnd alts rest then some acc else suffixGo alts acc rest

/-- Matcher for the pattern shape caret, lazy named subject, backslash-s plus,
terminal literal alternation, dollar. -/
def suffixAltMatch (alts : List String) (text : List Char) : Option Groups :=
  (suffixGo alts [] text).map (fun s => { subject := some (String.mk s) })

/-- Match the separator tail of the DifferenceBetween pattern at the current
split point: whitespace run, separator word tried in order, whitespace run,
nonempty greedy capture to the end. -/
def sepSplit (seps : List String) (cs : List Char) : Option (List Char) :=
  match cs with
  | c :: _ =>
    if pyIsWS c then
      firstAltG (fun _ rest => (afterAltSubject rest).map
        (fun s => { subject := some (String.mk s) })) seps (cs.dropWhile pyIsWS)
      |>.bind (fun g => g.subject.map String.data)
    else none
  | [] => none

/-- Worker for the DifferenceBetween pattern: the lazy first capture grows one
character at a time until the separator tail matches, yielding the earliest
separator occurrence, as the regex backtracking does. -/
def diffGo (seps : List String) : List Char → List Char → Option (List Char × List Char)
  | _, [] => none
  | acc, c :: rest =>
    let acc := acc ++ [c]
    match sepSplit seps rest with
    | some b => some (acc, b)
    | none => diffGo seps acc rest

/-- Matcher for the DifferenceBetween pattern, rule_intent.py line 32. -/
def diffPairMatch (pre seps : List String) (text : List Char) : Option Groups :=
  firstAltG (fun _ rest =>
    match rest with
    | c :: _ =>
      if pyIsWS c then
        (diffGo seps [] (rest.dropWhile pyIsWS)).map
          (fun ab => { a := some (String.mk ab.1), b := some (String.mk ab.2) })
      else none
    | [] => none) pre text

/-- Match the optional context tail of the DebugError and CreativeGeneration
patterns: either the end of the text, or whitespace, connector word,
whitespace, nonempty context to the end. -/
def ctxOpt (connector : String) (rest : List Char) : Option (Option (List Char)) :=
  match rest with
  | [] => some none
  | c :: _ =>
    if pyIsWS c then
      let t := rest.dropWhile pyIsWS
      if connector.data.isPrefixOf t then
        let u := t.drop connector.data.length
        match u with
        | d :: _ =>
          if pyIsWS d then
            let v := u.dropWhile pyIsWS
            if v.isEmpty then none else some (some v)
          else none
        | [] => none
      else none
    else none

/-- Matcher for the DebugError pattern, rule_intent.py lines 46 to 47: literal
subject alternative at the start, optional in context tail. -/
def literalCtxMatch (alts : List String) (connector : String) (text : List Char) :
    Option Groups :=
  firstAltG (fun alt rest => (ctxOpt connector rest).map
    (fun ctx => { subject := some alt, context := ctx.map String.mk })) alts text

/-- Subject alternative plus optional about context for CreativeGeneration. -/
def creativeCore (subjs : List String) (t : List Char) : Option Groups :=
  firstAltG (fun alt rest => (ctxOpt "about" rest).map
    (fun ctx => { subject := some alt, context := ctx.map String.mk })) subjs t

/-- Matcher for the CreativeGeneration pattern, rule_intent.py lines 50 to 51:
verb alternation, whitespace, optional article group, subject alternative,
optional about context; the greedy optional article backtracks when the rest
fails without it. -/
def creativeMatch (verbs subjs : List String) (text : List Char) : Option Groups :=
  firstAltG (fun _ rest =>
    match rest with
    | c :: _ =>
      if pyIsWS c then
        let t := rest.dropWhile pyIsWS
        let withA :=
          match t with
          | 'a' :: d :: rest2 =>
            if pyIsWS d then creativeCore subjs ((d :: rest2).dropWhile pyIsWS) else none
          | _ => none
        match withA with
        | some g => some g
        | none => creativeCore subjs t
      else none
    | [] => none) verbs text

/-- Matcher for the FindResource pattern, rule_intent.py line 54: verb
alternation, whitespace, greedy optional for group, nonempty subject. -/
def optForMatch (alts : List String) (text : List Char) : Option Groups :=
  firstAltG (fun _ rest =>
    match rest with
    | c :: _ =>
      if pyIsWS c then
        let t := rest.dropWhile pyIsWS
        let withFor :=
          if ("for".data).isPrefixOf t then
            let u := t.drop 3
            match u with
            | d :: _ =>
              if pyIsWS d then
                let v := u.dropWhile pyIsWS
                if v.isEmpty then none else some v
              else none
            | [] => none
          else none
        match withFor with
        | some s => some { subject := some (String.mk s) }
        | none => if t.isEmpty then none else some { subject := some (String.mk t) }
      else none
    | [] => none) alts text

/-- The shapes of the regex patterns appearing in INTENT_PATTERNS. -/
inductive PatKind where
  | prefixSubject : List String → PatKind
  | diffPair : List String → List String → PatKind
  | suffixAlt : List String → PatKind
  | literalCtx : List String → String → PatKind
  | creative : List String → List String → PatKind
  | optFor : List String → PatKind

/-- Run the matcher for one pattern shape. -/
def runPat : PatKind → List Char → Option Groups
  | .prefixSubject alts, text => prefixSubjectMatch alts text
  | .diffPair pre seps, text => diffPairMatch pre seps text
  | .suffixAlt alts, text => suffixAltMatch alts text
  | .literalCtx alts conn, text => literalCtxMatch alts conn text
  | .creative verbs subjs, text => creativeMatch verbs subjs text
  | .optFor alts, text => optForMatch alts text

/-- The apostrophe character, kept out of string literals. -/
def apos : String := String.singleton (Char.ofNat 39)

/-- INTENT_PATTERNS, rule_intent.py lines 24 to 64: ordered rule list; each
rule carries its regex source text, needed by pattern_strength, and the
matcher shape modelling that regex. -/
def INTENT_PATTERNS : List (String × List (String × PatKind)) :=
  [("DefineConcept",
    [("^(what is|what" ++ apos ++ "s|define|meaning of)\\s+(?P<subject>.+)$",
      .prefixSubject ["what is", "what" ++ apos ++ "s", "define", "meaning of"])]),
   ("ExplainConcept",
    [("^(explain)\\s+(?P<subject>.+)$", .prefixSubject ["explain"])]),
   ("DifferenceBetween",
    [("^(difference between|compare)\\s+(?P<a>.+?)\\s+(and|vs|versus)\\s+(?P<b>.+)$",
      .diffPair ["difference between", "compare"] ["and", "vs", "versus"])]),
   ("HowToGuide",
    [("^(how to|steps to|guide to|procedure to)\\s+(?P<subject>.+)$",
      .prefixSubject ["how to", "steps to", "guide to", "procedure to"])]),
   ("TroubleshootIssue",
    [("^(?P<subject>.+?)\\s+(error|not working|failed|exception|issue|problem)$",
      .suffixAlt ["error", "not working", "failed", "exception", "issue", "problem"]),
     ("^(error|not working|failed|exception|issue|problem)\\s+(?P<subject>.+)$",
      .prefixSubject ["error", "not working", "failed", "exception", "issue", "problem"])]),
   ("WriteCode",
    [("^(write code|write|implement)\\s+(?P<subject>.+)$",
      .prefixSubject ["write code", "write", "implement"])]),
   ("DebugError",
    [("^(?P<subject>traceback|stack trace|segfault|panic|exception)(?:\\s+in\\s+(?P<context>.+))?$",
      .literalCtx ["traceback", "stack trace", "segfault", "panic", "exception"] "in")]),
   ("CreativeGeneration",
    [("^(write|create)\\s+(a\\s+)?(?P<subject>story|poem|caption|lyrics|dialogue)(?:\\s+about\\s+(?P<context>.+))?$",
      .creative ["write", "create"] ["story", "poem", "caption", "lyrics", "dialogue"])]),
   ("FindResource",
    [("^(find|search|link|resource|course)\\s+(for\\s+)?(?P<subject>.+)$",
      .optFor ["find", "search", "link", "resource", "course"])]),
   ("InstallSetup",
    [("^(install|setup|configure|download)\\s+(?P<subject>.+)$",
      .prefixSubject ["install", "setup", "configure", "download"])]),
   ("ToolRecommendation",
    [("^(which|best|better|recommend|suggest)\\s+(?P<subject>.+)$",
      .prefixSubject ["which", "best", "better", "recommend", "suggest"])]),
   ("SummarizeText",
    [("^(summarize|rewrite|paraphrase|shorten|simplify|translate)\\s+(?P<subject>.+)$",
      .prefixSubject ["summarize", "rewrite", "paraphrase", "shorten", "simplify", "translate"])])]

/-- Subject assembly and scoring after a successful match, rule_intent.py
lines 171 to 198. -/
def assemble (intent patStr : String) (g : Groups) : IntentResult :=
  let subject0 :=
    if intent = "DifferenceBetween" then
      canonical_pair (g.a.getD "") (g.b.getD "")
    else if intent = "DebugError" then
      match g.context with
      | some c => (g.subject.getD "") ++ " " ++ c
      | none => g.subject.getD ""
    else if intent = "CreativeGeneration" then
      match g.context with
      | some c => (g.subject.getD "") ++ " about " ++ c
      | none => g.subject.getD ""
    else g.subject.getD ""
  let subject1 := collapse subject0
  let sn := normalize_subject intent subject1
  { intent := intent, subject := sn.1,
    confidence := compute_confidence intent sn.1 patStr sn.2,
    source := "rule" }

/-- Inner loop of extract_intent over the patterns of one rule. -/
def tryPatterns (intent : String) : List (String × PatKind) → List Char → Option IntentResult
  | [], _ => none
  | (patStr, kind) :: ps, text =>
    match runPat kind text with
    | some g => some (assemble intent patStr g)
    | none => tryPatterns intent ps text

/-- Outer loop of extract_intent over the ordered rule list. -/
def extractLoop : List (String × List (String × PatKind)) → List Char → Option IntentResult
  | [], _ => none
  | (intent, ps) :: rs, text =>
    match tryPatterns intent ps text with
    | some r => some r
    | none => extractLoop rs text

/-- extract_intent, rule_intent.py lines 132 to 200: lowercase and strip the
prompt, try each rule in order, return the assembled IntentResult of the first
matching pattern, else none.

Rounding caveat: the Python round builtin acts on binary doubles, so when the
exact score is a multiple of 1/200 the binary representation decides the
rounding direction; this model rounds the exact rational half to even. A
differential test against CPython over three thousand prompts agreed on every
intent and subject and disagreed on confidence only at such exact ties, and no
theorem below is settled at a tie value. -/
def extract_intent (prompt : String) : Option IntentResult :=
  extractLoop INTENT_PATTERNS (pyStrip (pyLower prompt)).data

/-! ### Entry store, from src/app/core/cache_store.py

The module level dicts are gathered into one Store record. The OrderedDict
cache_entries is an association list in insertion order, head oldest, which is
exactly the recency order the code maintains through move_to_end. The four
index dicts have unbounded key sets and are modelled as functions into Option.
Intent keys have the type of the values the engine actually stores there,
namely the IntentResult records returned by extract_intent. -/

/-- One cache entry: response text and absolute expiry time,
cache_store.py lines 64 to 67. -/
structure Entry where
  response : String
  expires_at : ℚ
deriving DecidableEq, Repr

/-- The global state of cache_store.py lines 25 to 29. -/
@[ext] structure Store where
  cache_entries : List (String × Entry)
  prompt_to_entry_id : String → Option String
  entry_id_to_prompts : String → Option (List String)
  intent_to_entry_id : IntentResult → Option String
  entry_id_to_intents : String → Option (List IntentResult)

/-- The store before any operation: every dict empty. -/
def emptyStore : Store :=
  ⟨[], fun _ => none, fun _ => none, fun _ => none, fun _ => none⟩

/-- MAX_CACHE_SIZE, cache_store.py line 31. -/
def MAX_CACHE_SIZE : ℕ := 10

/-- mru_update, cache_store.py lines 34 to 46: move the entry to the end of
the order. Python raises KeyError on an absent id; every call site has just
checked presence, and the model leaves the store unchanged in that case. -/
def mru_update (entry_id : String) (s : Store) : Store :=
  match s.cache_entries.lookup entry_id with
  | none => s
  | some e =>
    { s with cache_entries :=
        s.cache_entries.filter (fun kv => !(kv.1 == entry_id)) ++ [(entry_id, e)] }

/-- create_entry, cache_store.py lines 49 to 70. The uuid4 generated id is an
explicit parameter here; uuid ids are eight hex characters, hence nonempty,
and fresh with overwhelming probability, which the callers rely on. -/
def create_entry (entry_id response : String) (ttl_seconds now : ℚ) (s : Store) : Store :=
  { cache_entries := s.cache_entries ++ [(entry_id, ⟨response, now + ttl_seconds⟩)],
    prompt_to_entry_id := s.prompt_to_entry_id,
    entry_id_to_prompts := fun e =>
      if e = entry_id then some [] else s.entry_id_to_prompts e,
    intent_to_entry_id := s.intent_to_entry_id,
    entry_id_to_intents := fun e =>
      if e = entry_id then some [] else s.entry_id_to_intents e }

/-- Python set add on the list model of a set: append when absent. -/
def setAdd {α : Type} [DecidableEq α] (xs : List α) (x : α) : List α :=
  if x ∈ xs then xs else xs ++ [x]

/-- Python set discard on the list model of a set. -/
def setDiscard {α : Type} [DecidableEq α] (xs : List α) (x : α) : List α :=
  xs.filter (fun y => !(y == x))

/-- associate_prompt_to_entry, cache_store.py lines 73 to 94. The truthiness
test on the old entry id is modelled literally: a nonempty old id triggers the
discard from the old reverse set. The indexing of the reverse dict is total
here where Python would raise on an absent key; all reachable states have the
key present. -/
def associate_prompt_to_entry (prompt entry_id : String) (s : Store) : Store :=
  let s1 :=
    match s.prompt_to_entry_id prompt with
    | some old =>
      if old ≠ "" then
        { s with entry_id_to_prompts := fun e =>
            if e = old then (s.entry_id_to_prompts e).map (fun ps => setDiscard ps prompt)
            else s.entry_id_to_prompts e }
      else s
    | none => s
  { s1 with
    prompt_to_entry_id := fun q =>
      if q = prompt then some entry_id else s1.prompt_to_entry_id q,
    entry_id_to_prompts := fun e =>
      if e = entry_id then (s1.entry_id_to_prompts e).map (fun ps => setAdd ps prompt)
      else s1.entry_id_to_prompts e }

/-- associate_intent_to_entry, cache_store.py lines 97 to 118, structurally
identical to the prompt version but keyed by the extractor result values. -/
def associate_intent_to_entry (intent : IntentResult) (entry_id : String) (s : Store) : Store :=
  let s1 :=
    match s.intent_to_entry_id intent with
    | some old =>
      if old ≠ "" then
        { s with entry_id_to_intents := fun e =>
            if e = old then (s.entry_id_to_intents e).map (fun ks => setDiscard ks intent)
            else s.entry_id_to_intents e }
      else s
    | none => s
  { s1 with
    intent_to_entry_id := fun k =>
      if k = intent then some entry_id else s1.intent_to_entry_id k,
    entry_id_to_intents := fun e =>
      if e = entry_id then (s1.entry_id_to_intents e).map (fun ks => setAdd ks intent)
      else s1.entry_id_to_intents e }

/-- get_entry_id_by_prompt, cache_store.py lines 121 to 131. -/
def get_entry_id_by_prompt (prompt : String) (s : Store) : Option String :=
  s.prompt_to_entry_id prompt

/-- evict_entry, cache_store.py lines 167 to 192: pop the entry with a None
default, pop its reverse sets with empty defaults, and pop every prompt and
intent in those sets from the forward indices. The inner pops have no default
in Python; in every reachable state the popped keys are present, and the model
removes them unconditionally. -/
def evict_entry (entry_id : String) (s : Store) : Store :=
  let prompts := (s.entry_id_to_prompts entry_id).getD []
  let intents := (s.entry_id_to_intents entry_id).getD []
  { cache_entries := s.cache_entries.filter (fun kv => !(kv.1 == entry_id)),
    prompt_to_entry_id := fun q =>
      if q ∈ prompts then none else s.prompt_to_entry_id q,
    entry_id_to_prompts := fun e =>
      if e = entry_id then none else s.entry_id_to_prompts e,
    intent_to_entry_id := fun k =>
      if k ∈ intents then none else s.intent_to_entry_id k,
    entry_id_to_intents := fun e =>
      if e = entry_id then none else s.entry_id_to_intents e }

/-! ### Decision engine and write path, from src/app/core/cache.py -/

/-- Hit classification, src/app/types/cache_decision.py lines 4 to 8. -/
inductive HitType where
  | exact
  | intent
  | semantic
  | miss
deriving DecidableEq, Repr

/-- The decision record, src/app/types/cache_decision.py lines 10 to 15. -/
structure CacheDecision where
  hit_type : HitType
  entry_id : Option String
  ttl_remaining : ℚ
  confidence : ℚ
deriving DecidableEq, Repr

/-- Step one of decide_cache, cache.py lines 59 to 82: exact lookup. The left
summand is an early return, the right summand falls through with the store
possibly changed by an expiry eviction. Event emission is omitted: the event
sink is purely observational. -/
def exactStep (now : ℚ) (prompt : String) (s : Store) : (CacheDecision × Store) ⊕ Store :=
  match get_entry_id_by_prompt prompt s with
  | some entry_id =>
    match s.cache_entries.lookup entry_id with
    | some entry =>
      if now ≤ entry.expires_at then
        Sum.inl (⟨HitType.exact, some entry_id, entry.expires_at - now, 1⟩,
                 mru_update entry_id s)
      else Sum.inr (evict_entry entry_id s)
    | none => Sum.inr s
  | none => Sum.inr s

/-- Step two of decide_cache, cache.py lines 85 to 113: guarded intent lookup.
On a live intent hit the current literal prompt is additionally associated to
the entry and the returned confidence is the placeholder constant 0.7 written
at cache.py line 101. -/
def intentStep (now : ℚ) (prompt : String) (s : Store) : (CacheDecision × Store) ⊕ Store :=
  if should_try_intent prompt then
    match extract_intent prompt with
    | some intent_key =>
      match s.intent_to_entry_id intent_key with
      | some entry_id =>
        match s.cache_entries.lookup entry_id with
        | some entry =>
          if now ≤ entry.expires_at then
            Sum.inl (⟨HitType.intent, some entry_id, entry.expires_at - now, 7/10⟩,
                     associate_prompt_to_entry prompt entry_id (mru_update entry_id s))
          else Sum.inr (evict_entry entry_id s)
        | none => Sum.inr s
      | none => Sum.inr s
    | none => Sum.inr s
  else Sum.inr s

/-- decide_cache, cache.py lines 49 to 120: clean the prompt, try the exact
step, fall through to the intent step, else report a miss. -/
def decide_cache (now : ℚ) (prompt0 : String) (s : Store) : CacheDecision × Store :=
  match exactStep now (clean prompt0) s with
  | Sum.inl r => r
  | Sum.inr s1 =>
    match intentStep now (clean prompt0) s1 with
    | Sum.inl r => r
    | Sum.inr s2 => (⟨HitType.miss, none, 0, 0⟩, s2)

/-- Capacity enforcement, cache.py lines 204 to 214: when the store exceeds
capacity, evict the entry at the head of the recency order, the least recently
used one. The head exists whenever the length is positive; taking next of iter
on the OrderedDict is the head. -/
def enforce_capacity (cap : ℕ) (s3 : Store) : Store :=
  if s3.cache_entries.length > cap then
    match s3.cache_entries.head? with
    | some kv => evict_entry kv.1 s3
    | none => s3
  else s3

/-- set_in_cache, cache.py lines 151 to 214, with the capacity constant as a
parameter so that the spec scenarios with a small capacity are expressible;
set_in_cache below fixes it to MAX_CACHE_SIZE. An existing mapping for the
cleaned prompt is refreshed in place and touched; otherwise a fresh entry is
created, the prompt is associated, the extracted intent is associated when the
guardrail admits the prompt, and capacity is enforced. -/
def set_in_cache_cap (cap : ℕ) (now : ℚ) (entry_id prompt0 response : String)
    (ttl_seconds : ℚ) (s : Store) : Store :=
  let prompt := clean prompt0
  match get_entry_id_by_prompt prompt s with
  | some old_id =>
    let entries := s.cache_entries.map (fun kv =>
      if kv.1 = old_id then (kv.1, Entry.mk response (now + ttl_seconds)) else kv)
    mru_update old_id { s with cache_entries := entries }
  | none =>
    let s1 := create_entry entry_id response ttl_seconds now s
    let s2 := associate_prompt_to_entry prompt entry_id s1
    let s3 :=
      match extract_intent prompt with
      | some intent_key =>
        if should_try_intent prompt then associate_intent_to_entry intent_key entry_id s2
        else s2
      | none => s2
    enforce_capacity cap s3

/-- set_in_cache at the capacity constant of cache_store.py line 31. -/
def set_in_cache (now : ℚ) (entry_id prompt0 response : String)
    (ttl_seconds : ℚ) (s : Store) : Store :=
  set_in_cache_cap MAX_CACHE_SIZE now entry_id prompt0 response ttl_seconds s

/-! ### Association list lemmas -/

theorem lookup_cons {β : Type} (a : String × β) (l : List (String × β)) (k : String) :
    ((a :: l).lookup k) = if k = a.1 then some a.2 else l.lookup k := by
  rcases a with ⟨x, v⟩
  by_cases h : k = x
  · subst h
    simp [List.lookup]
  · have hb : (k == x) = false := beq_eq_false_iff_ne.mpr h
    simp [List.lookup, hb, h]

theorem lookup_append {β : Type} (l₁ l₂ : List (String × β)) (k : String) :
    (l₁ ++ l₂).lookup k = ((l₁.lookup k).orElse (fun _ => l₂.lookup k)) := by
  induction l₁ with
  | nil => simp [List.lookup]
  | cons a l ih =>
    by_cases h : k = a.1 <;>
      simp [lookup_cons, h, ih, Option.orElse]

theorem lookup_single {β : Type} (x k : String) (v : β) :
    List.lookup k [(x, v)] = if k = x then some v else none := by
  rw [lookup_cons]
  simp [List.lookup]

theorem lookup_filter {β : Type} (l : List (String × β)) (x k : String) :
    (l.filter (fun kv => !(kv.1 == x))).lookup k = if k = x then none else l.lookup k := by
  induction l with
  | nil => simp [List.lookup]
  | cons a l ih =>
    by_cases hax : a.1 = x
    · have hb : (!(a.1 == x)) = false := by simp [hax]
      rw [List.filter_cons, hb, if_neg Bool.false_ne_true, ih]
      by_cases hk : k = x
      · simp [hk]
      · have hk2 : ¬k = a.1 := fun h => hk (by rw [h, hax])
        simp [hk, lookup_cons, hk2]
    · have hb : (!(a.1 == x)) = true := by simp [hax]
      rw [List.filter_cons, hb, if_pos rfl, lookup_cons]
      by_cases hk : k = a.1
      · have hkx : ¬k = x := fun h => hax (hk ▸ h)
        rw [if_pos hk, if_neg hkx, lookup_cons, if_pos hk]
      · rw [if_neg hk, ih, lookup_cons]
        by_cases hkx : k = x <;> simp [hkx, hk]

theorem filter_eq_self_of_lookup_none {β : Type} (l : List (String × β)) (x : String)
    (h : l.lookup x = none) : l.filter (fun kv => !(kv.1 == x)) = l := by
  induction l with
  | nil => simp
  | cons a l ih =>
    rw [lookup_cons] at h
    by_cases hax : x = a.1
    · simp [hax] at h
    · have h2 : l.lookup x = none := by simpa [hax] using h
      have hb : (!(a.1 == x)) = true := by
        simp only [Bool.not_eq_true', beq_eq_false_iff_ne]
        exact fun he => hax he.symm
      simp [List.filter_cons, hb, ih h2]

theorem length_filter_lt_of_lookup_some {β : Type} (l : List (String × β)) (x : String)
    (v : β) (h : l.lookup x = some v) :
    (l.filter (fun kv => !(kv.1 == x))).length < l.length := by
  induction l with
  | nil => simp [List.lookup] at h
  | cons a l ih =>
    rw [lookup_cons] at h
    by_cases hax : x = a.1
    · have hb : (!(a.1 == x)) = false := by simp [hax.symm]
      rw [List.filter_cons, hb, if_neg Bool.false_ne_true]
      exact Nat.lt_succ_of_le (List.length_filter_le _ _)
    · have h2 : l.lookup x = some v := by simpa [hax] using h
      have hax2 : a.1 ≠ x := fun he => hax he.symm
      have hb : (!(a.1 == x)) = true := by simp [hax2]
      rw [List.filter_cons, hb, if_pos rfl]
      simp only [List.length_cons]
      exact Nat.succ_lt_succ (ih h2)

theorem mem_setAdd {α : Type} [DecidableEq α] (xs : List α) (x y : α) :
    y ∈ setAdd xs x ↔ y ∈ xs ∨ y = x := by
  by_cases h : x ∈ xs
  · simp only [setAdd, if_pos h]
    constructor
    · exact fun hy => Or.inl hy
    · rintro (hy | rfl)
      · exact hy
      · exact h
  · simp [setAdd, if_neg h]

theorem mem_setDiscard {α : Type} [DecidableEq α] (xs : List α) (x y : α) :
    y ∈ setDiscard xs x ↔ y ∈ xs ∧ y ≠ x := by
  simp [setDiscard, List.mem_filter]

/-! ### The index duality invariant -/

/-- The structural invariant of the entry store: entry keys are unique and
nonempty, the reverse set dicts have exactly the live ids as keys, forward
pointers target live entries and are recorded in the matching reverse set, and
every reverse set member points back. Sections 3 and 8 of the spec state the
duality part; the rest is what makes the Python code run without KeyError. -/
structure Inv (s : Store) : Prop where
  nodupKeys : (s.cache_entries.map Prod.fst).Nodup
  noEmptyId : s.cache_entries.lookup "" = none
  domP : ∀ e, (s.entry_id_to_prompts e).isSome = (s.cache_entries.lookup e).isSome
  domI : ∀ e, (s.entry_id_to_intents e).isSome = (s.cache_entries.lookup e).isSome
  fwdP : ∀ q e, s.prompt_to_entry_id q = some e →
      (s.cache_entries.lookup e).isSome = true ∧
        ∀ ps, s.entry_id_to_prompts e = some ps → q ∈ ps
  bwdP : ∀ e ps q, (s.cache_entries.lookup e).isSome = true →
      s.entry_id_to_prompts e = some ps → q ∈ ps → s.prompt_to_entry_id q = some e
  fwdI : ∀ k e, s.intent_to_entry_id k = some e →
      (s.cache_entries.lookup e).isSome = true ∧
        ∀ ks, s.entry_id_to_intents e = some ks → k ∈ ks
  bwdI : ∀ e ks k, (s.cache_entries.lookup e).isSome = true →
      s.entry_id_to_intents e = some ks → k ∈ ks → s.intent_to_entry_id k = some e

theorem inv_empty : Inv emptyStore := by
  refine ⟨?_, ?_, ?_, ?_, ?_, ?_, ?_, ?_⟩ <;>
    simp [emptyStore, List.lookup]

theorem lookup_append_single {β : Type} (l : List (String × β)) (x k : String) (v : β) :
    (l ++ [(x, v)]).lookup k =
      match l.lookup k with
      | some w => some w
      | none => if k = x then some v else none := by
  rw [lookup_append, lookup_single]
  cases l.lookup k <;> simp [Option.orElse]

theorem lookup_none_iff {β : Type} (l : List (String × β)) (k : String) :
    l.lookup k = none ↔ k ∉ l.map Prod.fst := by
  induction l with
  | nil => simp [List.lookup]
  | cons a l ih =>
    rw [lookup_cons]
    by_cases h : k = a.1 <;> simp [h, ih]

theorem inv_create (s : Store) (id r : String) (ttl now : ℚ)
    (hs : Inv s) (hfresh : s.cache_entries.lookup id = none) (hne : id ≠ "") :
    Inv (create_entry id r ttl now s) := by
  have hidmem : id ∉ s.cache_entries.map Prod.fst := (lookup_none_iff _ _).mp hfresh
  have hlook : ∀ k, (create_entry id r ttl now s).cache_entries.lookup k =
      match s.cache_entries.lookup k with
      | some w => some w
      | none => if k = id then some (Entry.mk r (now + ttl)) else none := by
    intro k
    show (s.cache_entries ++ [(id, Entry.mk r (now + ttl))]).lookup k = _
    rw [lookup_append_single s.cache_entries id k (Entry.mk r (now + ttl))]
    cases s.cache_entries.lookup k <;> rfl
  constructor
  · -- nodupKeys
    simp only [create_entry, List.map_append, List.map_cons, List.map_nil]
    refine List.Nodup.append hs.nodupKeys (List.nodup_singleton id) ?_
    intro a ha hb
    rw [List.mem_singleton] at hb
    exact hidmem (hb ▸ ha)
  · -- noEmptyId
    rw [hlook, hs.noEmptyId]
    simp [if_neg (Ne.symm hne)]
  · -- domP
    intro e
    rw [hlook]
    by_cases he : e = id
    · subst he
      simp [create_entry, hfresh]
    · simp only [create_entry, if_neg he]
      rw [hs.domP e]
      cases h : s.cache_entries.lookup e <;> simp [he, h]
  · -- domI
    intro e
    rw [hlook]
    by_cases he : e = id
    · subst he
      simp [create_entry, hfresh]
    · simp only [create_entry, if_neg he]
      rw [hs.domI e]
      cases h : s.cache_entries.lookup e <;> simp [he, h]
  · -- fwdP
    intro q e h
    have h0 : s.prompt_to_entry_id q = some e := h
    obtain ⟨hlive, hmem⟩ := hs.fwdP q e h0
    have hnid : e ≠ id := by
      intro he
      rw [he, hfresh] at hlive
      simp at hlive
    constructor
    · rw [hlook]
      cases hl : s.cache_entries.lookup e
      · rw [hl] at hlive; simp at hlive
      · simp
    · intro ps hps
      apply hmem
      simpa [create_entry, hnid] using hps
  · -- bwdP
    intro e ps q hlive hps hmem
    by_cases he : e = id
    · subst he
      simp only [create_entry, if_pos rfl] at hps
      cases hps
      simp at hmem
    · have hps2 : s.entry_id_to_prompts e = some ps := by
        simpa [create_entry, he] using hps
      have hlive2 : (s.cache_entries.lookup e).isSome = true := by
        rw [hlook] at hlive
        cases hl : s.cache_entries.lookup e
        · rw [hl] at hlive; simp [he] at hlive
        · simp
      exact hs.bwdP e ps q hlive2 hps2 hmem
  · -- fwdI
    intro k e h
    have h0 : s.intent_to_entry_id k = some e := h
    obtain ⟨hlive, hmem⟩ := hs.fwdI k e h0
    have hnid : e ≠ id := by
      intro he
      rw [he, hfresh] at hlive
      simp at hlive
    constructor
    · rw [hlook]
      cases hl : s.cache_entries.lookup e
      · rw [hl] at hlive; simp at hlive
      · simp
    · intro ks hks
      apply hmem
      simpa [create_entry, hnid] using hks
  · -- bwdI
    intro e ks k hlive hks hmem
    by_cases he : e = id
    · subst he
      simp only [create_entry, if_pos rfl] at hks
      cases hks
      simp at hmem
    · have hks2 : s.entry_id_to_intents e = some ks := by
        simpa [create_entry, he] using hks
      have hlive2 : (s.cache_entries.lookup e).isSome = true := by
        rw [hlook] at hlive
        cases hl : s.cache_entries.lookup e
        · rw [hl] at hlive; simp [he] at hlive
        · simp
      exact hs.bwdI e ks k hlive2 hks2 hmem

theorem isSome_map {α β : Type} (f : α → β) (o : Option α) :
    (o.map f).isSome = o.isSome := by
  cases o <;> rfl

theorem inv_assocP (p e : String) (s : Store) (hs : Inv s)
    (he : (s.cache_entries.lookup e).isSome = true) :
    Inv (associate_prompt_to_entry p e s) := by
  rcases hold : s.prompt_to_entry_id p with _ | old
  · -- the prompt had no previous entry
    have hforward : ∀ q, (associate_prompt_to_entry p e s).prompt_to_entry_id q
        = if q = p then some e else s.prompt_to_entry_id q := by
      intro q
      simp [associate_prompt_to_entry, hold]
    have hrev : ∀ x, (associate_prompt_to_entry p e s).entry_id_to_prompts x
        = if x = e then (s.entry_id_to_prompts x).map (fun ps => setAdd ps p)
          else s.entry_id_to_prompts x := by
      intro x
      simp [associate_prompt_to_entry, hold]
    have hent : (associate_prompt_to_entry p e s).cache_entries = s.cache_entries := by
      simp [associate_prompt_to_entry, hold]
    have hint : ∀ k, (associate_prompt_to_entry p e s).intent_to_entry_id k
        = s.intent_to_entry_id k := by
      intro k
      simp [associate_prompt_to_entry, hold]
    have hrevI : ∀ x, (associate_prompt_to_entry p e s).entry_id_to_intents x
        = s.entry_id_to_intents x := by
      intro x
      simp [associate_prompt_to_entry, hold]
    constructor
    · rw [hent]
      exact hs.nodupKeys
    · rw [hent]
      exact hs.noEmptyId
    · intro x
      rw [hent, hrev]
      by_cases hx : x = e <;> simp [hx, isSome_map, hs.domP]
    · intro x
      rw [hent, hrevI]
      exact hs.domI x
    · intro q e₀ h
      rw [hforward] at h
      rw [hent]
      by_cases hq : q = p
      · rw [if_pos hq] at h
        cases h
        refine ⟨he, ?_⟩
        intro ps hps
        rw [hrev, if_pos rfl] at hps
        rcases Option.map_eq_some'.mp hps with ⟨xs, _, rfl⟩
        exact (mem_setAdd xs p q).mpr (Or.inr hq)
      · rw [if_neg hq] at h
        obtain ⟨hl, hm⟩ := hs.fwdP q e₀ h
        refine ⟨hl, ?_⟩
        intro ps hps
        rw [hrev] at hps
        by_cases hx : e₀ = e
        · rw [if_pos hx] at hps
          rcases Option.map_eq_some'.mp hps with ⟨xs, hxs, rfl⟩
          exact (mem_setAdd xs p q).mpr (Or.inl (hm xs hxs))
        · rw [if_neg hx] at hps
          exact hm ps hps
    · intro e₀ ps q hlive hps hmem
      rw [hent] at hlive
      rw [hrev] at hps
      rw [hforward]
      by_cases hq : q = p
      · rw [if_pos hq]
        by_cases hx : e₀ = e
        · rw [hx]
        · rw [if_neg hx] at hps
          have := hs.bwdP e₀ ps q hlive hps hmem
          rw [hq, hold] at this
          cases this
      · rw [if_neg hq]
        by_cases hx : e₀ = e
        · subst hx
          rw [if_pos rfl] at hps
          rcases Option.map_eq_some'.mp hps with ⟨xs, hxs, rfl⟩
          rcases (mem_setAdd xs p q).mp hmem with hqx | hqp
          · exact hs.bwdP e₀ xs q hlive hxs hqx
          · exact absurd hqp hq
        · rw [if_neg hx] at hps
          exact hs.bwdP e₀ ps q hlive hps hmem
    · intro k e₀ h
      rw [hint] at h
      obtain ⟨hl, hm⟩ := hs.fwdI k e₀ h
      rw [hent]
      refine ⟨hl, ?_⟩
      intro ks hks
      rw [hrevI] at hks
      exact hm ks hks
    · intro e₀ ks k hlive hks hmem
      rw [hent] at hlive
      rw [hrevI] at hks
      rw [hint]
      exact hs.bwdI e₀ ks k hlive hks hmem
  · -- the prompt previously pointed at old, which the invariant makes live
    have hlive_old := (hs.fwdP p old hold).1
    have hne : old ≠ "" := by
      intro h0
      rw [h0, hs.noEmptyId] at hlive_old
      simp at hlive_old
    have hforward : ∀ q, (associate_prompt_to_entry p e s).prompt_to_entry_id q
        = if q = p then some e else s.prompt_to_entry_id q := by
      intro q
      simp [associate_prompt_to_entry, hold, hne]
    have hrev : ∀ x, (associate_prompt_to_entry p e s).entry_id_to_prompts x
        = if x = e then
            (if x = old then (s.entry_id_to_prompts x).map (fun ps => setDiscard ps p)
             else s.entry_id_to_prompts x).map (fun ps => setAdd ps p)
          else
            (if x = old then (s.entry_id_to_prompts x).map (fun ps => setDiscard ps p)
             else s.entry_id_to_prompts x) := by
      intro x
      simp [associate_prompt_to_entry, hold, hne]
    have hent : (associate_prompt_to_entry p e s).cache_entries = s.cache_entries := by
      simp [associate_prompt_to_entry, hold, hne]
    have hint : ∀ k, (associate_prompt_to_entry p e s).intent_to_entry_id k
        = s.intent_to_entry_id k := by
      intro k
      simp [associate_prompt_to_entry, hold, hne]
    have hrevI : ∀ x, (associate_prompt_to_entry p e s).entry_id_to_intents x
        = s.entry_id_to_intents x := by
      intro x
      simp [associate_prompt_to_entry, hold, hne]
    constructor
    · rw [hent]
      exact hs.nodupKeys
    · rw [hent]
      exact hs.noEmptyId
    · intro x
      rw [hent, hrev]
      have hiso : ∀ o : Option (List String),
          (if x = old then o.map (fun ps => setDiscard ps p) else o).isSome = o.isSome := by
        intro o
        by_cases hxo : x = old <;> simp [hxo, isSome_map]
      by_cases hx : x = e
      · rw [if_pos hx, isSome_map, hiso]
        exact hs.domP x
      · rw [if_neg hx, hiso]
        exact hs.domP x
    · intro x
      rw [hent, hrevI]
      exact hs.domI x
    · intro q e₀ h
      rw [hforward] at h
      rw [hent]
      by_cases hq : q = p
      · rw [if_pos hq] at h
        cases h
        refine ⟨he, ?_⟩
        intro ps hps
        rw [hrev, if_pos rfl] at hps
        rcases Option.map_eq_some'.mp hps with ⟨xs, _, rfl⟩
        exact (mem_setAdd xs p q).mpr (Or.inr hq)
      · rw [if_neg hq] at h
        obtain ⟨hl, hm⟩ := hs.fwdP q e₀ h
        refine ⟨hl, ?_⟩
        intro ps hps
        rw [hrev] at hps
        have hmem1 : ∀ xs,
            (if e₀ = old then (s.entry_id_to_prompts e₀).map (fun ps => setDiscard ps p)
             else s.entry_id_to_prompts e₀) = some xs → q ∈ xs := by
          intro xs hxs
          by_cases hxo : e₀ = old
          · rw [if_pos hxo] at hxs
            rcases Option.map_eq_some'.mp hxs with ⟨ys, hys, rfl⟩
            exact (mem_setDiscard ys p q).mpr ⟨hm ys hys, hq⟩
          · rw [if_neg hxo] at hxs
            exact hm xs hxs
        by_cases hx : e₀ = e
        · rw [if_pos hx] at hps
          rcases Option.map_eq_some'.mp hps with ⟨xs, hxs, rfl⟩
          exact (mem_setAdd xs p q).mpr (Or.inl (hmem1 xs hxs))
        · rw [if_neg hx] at hps
          exact hmem1 ps hps
    · intro e₀ ps q hlive hps hmem
      rw [hent] at hlive
      rw [hrev] at hps
      rw [hforward]
      by_cases hq : q = p
      · rw [if_pos hq]
        by_cases hx : e₀ = e
        · rw [hx]
        · exfalso
          rw [if_neg hx] at hps
          by_cases hxo : e₀ = old
          · rw [if_pos hxo] at hps
            rcases Option.map_eq_some'.mp hps with ⟨ys, _, rfl⟩
            have := ((mem_setDiscard ys p q).mp hmem).2
            exact this hq
          · rw [if_neg hxo] at hps
            have := hs.bwdP e₀ ps q hlive hps hmem
            rw [hq, hold] at this
            cases this
            exact hxo rfl
      · rw [if_neg hq]
        have hback : ∀ xs,
            (if e₀ = old then (s.entry_id_to_prompts e₀).map (fun ps => setDiscard ps p)
             else s.entry_id_to_prompts e₀) = some xs → q ∈ xs →
            s.prompt_to_entry_id q = some e₀ := by
          intro xs hxs hqxs
          by_cases hxo : e₀ = old
          · rw [if_pos hxo] at hxs
            rcases Option.map_eq_some'.mp hxs with ⟨ys, hys, rfl⟩
            exact hs.bwdP e₀ ys q hlive hys ((mem_setDiscard ys p q).mp hqxs).1
          · rw [if_neg hxo] at hxs
            exact hs.bwdP e₀ xs q hlive hxs hqxs
        by_cases hx : e₀ = e
        · subst hx
          rw [if_pos rfl] at hps
          rcases Option.map_eq_some'.mp hps with ⟨xs, hxs, rfl⟩
          rcases (mem_setAdd xs p q).mp hmem with hqx | hqp
          · exact hback xs hxs hqx
          · exact absurd hqp hq
        · rw [if_neg hx] at hps
          exact hback ps hps hmem
    · intro k e₀ h
      rw [hint] at h
      obtain ⟨hl, hm⟩ := hs.fwdI k e₀ h
      rw [hent]
      refine ⟨hl, ?_⟩
      intro ks hks
      rw [hrevI] at hks
      exact hm ks hks
    · intro e₀ ks k hlive hks hmem
      rw [hent] at hlive
      rw [hrevI] at hks
      rw [hint]
      exact hs.bwdI e₀ ks k hlive hks hmem

theorem inv_assocI (key : IntentResult) (e : String) (s : Store) (hs : Inv s)
    (he : (s.cache_entries.lookup e).isSome = true) :
    Inv (associate_intent_to_entry key e s) := by
  rcases hold : s.intent_to_entry_id key with _ | old
  · -- the intent key had no previous entry
    have hforward : ∀ q, (associate_intent_to_entry key e s).intent_to_entry_id q
        = if q = key then some e else s.intent_to_entry_id q := by
      intro q
      simp [associate_intent_to_entry, hold]
    have hrev : ∀ x, (associate_intent_to_entry key e s).entry_id_to_intents x
        = if x = e then (s.entry_id_to_intents x).map (fun ks => setAdd ks key)
          else s.entry_id_to_intents x := by
      intro x
      simp [associate_intent_to_entry, hold]
    have hent : (associate_intent_to_entry key e s).cache_entries = s.cache_entries := by
      simp [associate_intent_to_entry, hold]
    have hpm : ∀ q, (associate_intent_to_entry key e s).prompt_to_entry_id q
        = s.prompt_to_entry_id q := by
      intro q
      simp [associate_intent_to_entry, hold]
    have hrevP : ∀ x, (associate_intent_to_entry key e s).entry_id_to_prompts x
        = s.entry_id_to_prompts x := by
      intro x
      simp [associate_intent_to_entry, hold]
    constructor
    · rw [hent]
      exact hs.nodupKeys
    · rw [hent]
      exact hs.noEmptyId
    · intro x
      rw [hent, hrevP]
      exact hs.domP x
    · intro x
      rw [hent, hrev]
      by_cases hx : x = e <;> simp [hx, isSome_map, hs.domI]
    · intro q e₀ h
      rw [hpm] at h
      obtain ⟨hl, hm⟩ := hs.fwdP q e₀ h
      rw [hent]
      refine ⟨hl, ?_⟩
      intro ps hps
      rw [hrevP] at hps
      exact hm ps hps
    · intro e₀ ps q hlive hps hmem
      rw [hent] at hlive
      rw [hrevP] at hps
      rw [hpm]
      exact hs.bwdP e₀ ps q hlive hps hmem
    · intro q e₀ h
      rw [hforward] at h
      rw [hent]
      by_cases hq : q = key
      · rw [if_pos hq] at h
        cases h
        refine ⟨he, ?_⟩
        intro ks hks
        rw [hrev, if_pos rfl] at hks
        rcases Option.map_eq_some'.mp hks with ⟨xs, _, rfl⟩
        exact (mem_setAdd xs key q).mpr (Or.inr hq)
      · rw [if_neg hq] at h
        obtain ⟨hl, hm⟩ := hs.fwdI q e₀ h
        refine ⟨hl, ?_⟩
        intro ks hks
        rw [hrev] at hks
        by_cases hx : e₀ = e
        · rw [if_pos hx] at hks
          rcases Option.map_eq_some'.mp hks with ⟨xs, hxs, rfl⟩
          exact (mem_setAdd xs key q).mpr (Or.inl (hm xs hxs))
        · rw [if_neg hx] at hks
          exact hm ks hks
    · intro e₀ ks q hlive hks hmem
      rw [hent] at hlive
      rw [hrev] at hks
      rw [hforward]
      by_cases hq : q = key
      · rw [if_pos hq]
        by_cases hx : e₀ = e
        · rw [hx]
        · rw [if_neg hx] at hks
          have := hs.bwdI e₀ ks q hlive hks hmem
          rw [hq, hold] at this
          cases this
      · rw [if_neg hq]
        by_cases hx : e₀ = e
        · subst hx
          rw [if_pos rfl] at hks
          rcases Option.map_eq_some'.mp hks with ⟨xs, hxs, rfl⟩
          rcases (mem_setAdd xs key q).mp hmem with hqx | hqp
          · exact hs.bwdI e₀ xs q hlive hxs hqx
          · exact absurd hqp hq
        · rw [if_neg hx] at hks
          exact hs.bwdI e₀ ks q hlive hks hmem
  · -- the intent key previously pointed at old, which the invariant makes live
    have hlive_old := (hs.fwdI key old hold).1
    have hne : old ≠ "" := by
      intro h0
      rw [h0, hs.noEmptyId] at hlive_old
      simp at hlive_old
    have hforward : ∀ q, (associate_intent_to_entry key e s).intent_to_entry_id q
        = if q = key then some e else s.intent_to_entry_id q := by
      intro q
      simp [associate_intent_to_entry, hold, hne]
    have hrev : ∀ x, (associate_intent_to_entry key e s).entry_id_to_intents x
        = if x = e then
            (if x = old then (s.entry_id_to_intents x).map (fun ks => setDiscard ks key)
             else s.entry_id_to_intents x).map (fun ks => setAdd ks key)
          else
            (if x = old then (s.entry_id_to_intents x).map (fun ks => setDiscard ks key)
             else s.entry_id_to_intents x) := by
      intro x
      simp [associate_intent_to_entry, hold, hne]
    have hent : (associate_intent_to_entry key e s).cache_entries = s.cache_entries := by
      simp [associate_intent_to_entry, hold, hne]
    have hpm : ∀ q, (associate_intent_to_entry key e s).prompt_to_entry_id q
        = s.prompt_to_entry_id q := by
      intro q
      simp [associate_intent_to_entry, hold, hne]
    have hrevP : ∀ x, (associate_intent_to_entry key e s).entry_id_to_prompts x
        = s.entry_id_to_prompts x := by
      intro x
      simp [associate_intent_to_entry, hold, hne]
    constructor
    · rw [hent]
      exact hs.nodupKeys
    · rw [hent]
      exact hs.noEmptyId
    · intro x
      rw [hent, hrevP]
      exact hs.domP x
    · intro x
      rw [hent, hrev]
      have hiso : ∀ o : Option (List IntentResult),
          (if x = old then o.map (fun ks => setDiscard ks key) else o).isSome = o.isSome := by
        intro o
        by_cases hxo : x = old <;> simp [hxo, isSome_map]
      by_cases hx : x = e
      · rw [if_pos hx, isSome_map, hiso]
        exact hs.domI x
      · rw [if_neg hx, hiso]
        exact hs.domI x
    · intro q e₀ h
      rw [hpm] at h
      obtain ⟨hl, hm⟩ := hs.fwdP q e₀ h
      rw [hent]
      refine ⟨hl, ?_⟩
      intro ps hps
      rw [hrevP] at hps
      exact hm ps hps
    · intro e₀ ps q hlive hps hmem
      rw [hent] at hlive
      rw [hrevP] at hps
      rw [hpm]
      exact hs.bwdP e₀ ps q hlive hps hmem
    · intro q e₀ h
      rw [hforward] at h
      rw [hent]
      by_cases hq : q = key
      · rw [if_pos hq] at h
        cases h
        refine ⟨he, ?_⟩
        intro ks hks
        rw [hrev, if_pos rfl] at hks
        rcases Option.map_eq_some'.mp hks with ⟨xs, _, rfl⟩
        exact (mem_setAdd xs key q).mpr (Or.inr hq)
      · rw [if_neg hq] at h
        obtain ⟨hl, hm⟩ := hs.fwdI q e₀ h
        refine ⟨hl, ?_⟩
        intro ks hks
        rw [hrev] at hks
        have hmem1 : ∀ xs,
            (if e₀ = old then (s.entry_id_to_intents e₀).map (fun ks => setDiscard ks key)
             else s.entry_id_to_intents e₀) = some xs → q ∈ xs := by
          intro xs hxs
          by_cases hxo : e₀ = old
          · rw [if_pos hxo] at hxs
            rcases Option.map_eq_some'.mp hxs with ⟨ys, hys, rfl⟩
            exact (mem_setDiscard ys key q).mpr ⟨hm ys hys, hq⟩
          · rw [if_neg hxo] at hxs
            exact hm xs hxs
        by_cases hx : e₀ = e
        · rw [if_pos hx] at hks
          rcases Option.map_eq_some'.mp hks with ⟨xs, hxs, rfl⟩
          exact (mem_setAdd xs key q).mpr (Or.inl (hmem1 xs hxs))
        · rw [if_neg hx] at hks
          exact hmem1 ks hks
    · intro e₀ ks q hlive hks hmem
      rw [hent] at hlive
      rw [hrev] at hks
      rw [hforward]
      by_cases hq : q = key
      · rw [if_pos hq]
        by_cases hx : e₀ = e
        · rw [hx]
        · exfalso
          rw [if_neg hx] at hks
          by_cases hxo : e₀ = old
          · rw [if_pos hxo] at hks
            rcases Option.map_eq_some'.mp hks with ⟨ys, _, rfl⟩
            have := ((mem_setDiscard ys key q).mp hmem).2
            exact this hq
          · rw [if_neg hxo] at hks
            have := hs.bwdI e₀ ks q hlive hks hmem
            rw [hq, hold] at this
            cases this
            exact hxo rfl
      · rw [if_neg hq]
        have hback : ∀ xs,
            (if e₀ = old then (s.entry_id_to_intents e₀).map (fun ks => setDiscard ks key)
             else s.entry_id_to_intents e₀) = some xs → q ∈ xs →
            s.intent_to_entry_id q = some e₀ := by
          intro xs hxs hqxs
          by_cases hxo : e₀ = old
          · rw [if_pos hxo] at hxs
            rcases Option.map_eq_some'.mp hxs with ⟨ys, hys, rfl⟩
            exact hs.bwdI e₀ ys q hlive hys ((mem_setDiscard ys key q).mp hqxs).1
          · rw [if_neg hxo] at hxs
            exact hs.bwdI e₀ xs q hlive hxs hqxs
        by_cases hx : e₀ = e
        · subst hx
          rw [if_pos rfl] at hks
          rcases Option.map_eq_some'.mp hks with ⟨xs, hxs, rfl⟩
          rcases (mem_setAdd xs key q).mp hmem with hqx | hqp
          · exact hback xs hxs hqx
          · exact absurd hqp hq
        · rw [if_neg hx] at hks
          exact hback ks hks hmem

theorem inv_evict (id : String) (s : Store) (hs : Inv s) : Inv (evict_entry id s) := by
  have hent : ∀ k, (evict_entry id s).cache_entries.lookup k
      = if k = id then none else s.cache_entries.lookup k := by
    intro k
    show (s.cache_entries.filter (fun kv => !(kv.1 == id))).lookup k = _
    exact lookup_filter _ _ _
  have hforward : ∀ q, (evict_entry id s).prompt_to_entry_id q
      = if q ∈ (s.entry_id_to_prompts id).getD [] then none else s.prompt_to_entry_id q :=
    fun _ => rfl
  have hintm : ∀ k, (evict_entry id s).intent_to_entry_id k
      = if k ∈ (s.entry_id_to_intents id).getD [] then none else s.intent_to_entry_id k :=
    fun _ => rfl
  have hrevP : ∀ x, (evict_entry id s).entry_id_to_prompts x
      = if x = id then none else s.entry_id_to_prompts x :=
    fun _ => rfl
  have hrevI : ∀ x, (evict_entry id s).entry_id_to_intents x
      = if x = id then none else s.entry_id_to_intents x :=
    fun _ => rfl
  constructor
  · -- nodupKeys
    have hsub : (evict_entry id s).cache_entries.Sublist s.cache_entries :=
      List.filter_sublist _
    exact (hsub.map Prod.fst).nodup hs.nodupKeys
  · rw [hent]
    by_cases h : "" = id <;> simp [h, hs.noEmptyId]
  · intro x
    rw [hent, hrevP]
    by_cases hx : x = id <;> simp [hx, hs.domP]
  · intro x
    rw [hent, hrevI]
    by_cases hx : x = id <;> simp [hx, hs.domI]
  · -- fwdP
    intro q e₀ h
    rw [hforward] at h
    by_cases hq : q ∈ (s.entry_id_to_prompts id).getD []
    · rw [if_pos hq] at h
      cases h
    · rw [if_neg hq] at h
      obtain ⟨hl, hm⟩ := hs.fwdP q e₀ h
      have hne : e₀ ≠ id := by
        intro h0
        subst h0
        rcases hrevid : s.entry_id_to_prompts e₀ with _ | ps₀
        · rw [hrevid] at hq
          have := hs.domP e₀
          rw [hrevid] at this
          rw [← this] at hl
          cases hl
        · exact hq (by rw [hrevid]; exact hm ps₀ hrevid)
      refine ⟨?_, ?_⟩
      · rw [hent, if_neg hne]
        exact hl
      · intro ps hps
        rw [hrevP, if_neg hne] at hps
        exact hm ps hps
  · -- bwdP
    intro e₀ ps q hlive hps hmem
    rw [hent] at hlive
    by_cases hne : e₀ = id
    · rw [if_pos hne] at hlive
      cases hlive
    · rw [if_neg hne] at hlive
      rw [hrevP, if_neg hne] at hps
      have hfw := hs.bwdP e₀ ps q hlive hps hmem
      rw [hforward]
      have hq : q ∉ (s.entry_id_to_prompts id).getD [] := by
        intro hq0
        rcases hrevid : s.entry_id_to_prompts id with _ | ps₀
        · rw [hrevid] at hq0
          cases hq0
        · rw [hrevid] at hq0
          have hlid : (s.cache_entries.lookup id).isSome = true := by
            rw [← hs.domP id, hrevid]
            rfl
          have := hs.bwdP id ps₀ q hlid hrevid hq0
          rw [hfw] at this
          cases this
          exact hne rfl
      rw [if_neg hq]
      exact hfw
  · -- fwdI
    intro k e₀ h
    rw [hintm] at h
    by_cases hk : k ∈ (s.entry_id_to_intents id).getD []
    · rw [if_pos hk] at h
      cases h
    · rw [if_neg hk] at h
      obtain ⟨hl, hm⟩ := hs.fwdI k e₀ h
      have hne : e₀ ≠ id := by
        intro h0
        subst h0
        rcases hrevid : s.entry_id_to_intents e₀ with _ | ks₀
        · rw [hrevid] at hk
          have := hs.domI e₀
          rw [hrevid] at this
          rw [← this] at hl
          cases hl
        · exact hk (by rw [hrevid]; exact hm ks₀ hrevid)
      refine ⟨?_, ?_⟩
      · rw [hent, if_neg hne]
        exact hl
      · intro ks hks
        rw [hrevI, if_neg hne] at hks
        exact hm ks hks
  · -- bwdI
    intro e₀ ks k hlive hks hmem
    rw [hent] at hlive
    by_cases hne : e₀ = id
    · rw [if_pos hne] at hlive
      cases hlive
    · rw [if_neg hne] at hlive
      rw [hrevI, if_neg hne] at hks
      have hfw := hs.bwdI e₀ ks k hlive hks hmem
      rw [hintm]
      have hk : k ∉ (s.entry_id_to_intents id).getD [] := by
        intro hk0
        rcases hrevid : s.entry_id_to_intents id with _ | ks₀
        · rw [hrevid] at hk0
          cases hk0
        · rw [hrevid] at hk0
          have hlid : (s.cache_entries.lookup id).isSome = true := by
            rw [← hs.domI id, hrevid]
            rfl
          have := hs.bwdI id ks₀ k hlid hrevid hk0
          rw [hfw] at this
          cases this
          exact hne rfl
      rw [if_neg hk]
      exact hfw

/-- Store states reachable from the empty store by the four store level
operations named in claim C1. Creation ids come from uuid4 hex prefixes, so
they are fresh and nonempty; association targets a live entry, since the
Python code indexes the reverse dict of that entry and would raise otherwise;
eviction takes any id. -/
inductive ReachS : Store → Prop where
  | empty : ReachS emptyStore
  | create (s : Store) (id response : String) (ttl now : ℚ) :
      ReachS s → s.cache_entries.lookup id = none → id ≠ "" →
      ReachS (create_entry id response ttl now s)
  | assocPrompt (s : Store) (p e : String) :
      ReachS s → (s.cache_entries.lookup e).isSome = true →
      ReachS (associate_prompt_to_entry p e s)
  | assocIntent (s : Store) (k : IntentResult) (e : String) :
      ReachS s → (s.cache_entries.lookup e).isSome = true →
      ReachS (associate_intent_to_entry k e s)
  | evict (s : Store) (id : String) :
      ReachS s → ReachS (evict_entry id s)

theorem inv_of_reachS {s : Store} (h : ReachS s) : Inv s := by
  induction h with
  | empty => exact inv_empty
  | create s id response ttl now _ hfresh hne ih => exact inv_create s id response ttl now ih hfresh hne
  | assocPrompt s p e _ he ih => exact inv_assocP p e s ih he
  | assocIntent s k e _ he ih => exact inv_assocI k e s ih he
  | evict s id _ ih => exact inv_evict id s ih

/-- Claim C1: index duality. For every live entry e, after any sequence of
create, associate prompt, associate intent and evict operations starting from
the empty store, a prompt p maps to e in the forward prompt index exactly when
p is a member of the reverse prompt set of e, and an intent key k maps to e in
the forward intent index exactly when k is a member of the reverse intent set
of e. -/
theorem C1_index_duality (s : Store) (e p : String) (k : IntentResult)
    (hreach : ReachS s) (he : (s.cache_entries.lookup e).isSome = true) :
    (s.prompt_to_entry_id p = some e ↔
      ∃ ps, s.entry_id_to_prompts e = some ps ∧ p ∈ ps) ∧
    (s.intent_to_entry_id k = some e ↔
      ∃ ks, s.entry_id_to_intents e = some ks ∧ k ∈ ks) := by
  have hs := inv_of_reachS hreach
  constructor
  · constructor
    · intro h
      obtain ⟨_, hm⟩ := hs.fwdP p e h
      rcases hrev : s.entry_id_to_prompts e with _ | ps
      · have hd := hs.domP e
        rw [hrev] at hd
        rw [← hd] at he
        cases he
      · exact ⟨ps, rfl, hm ps hrev⟩
    · rintro ⟨ps, hps, hmem⟩
      exact hs.bwdP e ps p he hps hmem
  · constructor
    · intro h
      obtain ⟨_, hm⟩ := hs.fwdI k e h
      rcases hrev : s.entry_id_to_intents e with _ | ks
      · have hd := hs.domI e
        rw [hrev] at hd
        rw [← hd] at he
        cases he
      · exact ⟨ks, rfl, hm ks hrev⟩
    · rintro ⟨ks, hks, hmem⟩
      exact hs.bwdI e ks k he hks hmem

/-- Concrete reachable store used by the C1 witness: one created entry with
one associated prompt and one associated intent key. -/
def dualityWitnessStore : Store :=
  associate_intent_to_entry (IntentResult.mk "DefineConcept" "recursion" (27/50) "rule") "e1"
    (associate_prompt_to_entry "what is recursion" "e1"
      (create_entry "e1" "resp" 5 0 emptyStore))

theorem dualityWitnessStore_reach : ReachS dualityWitnessStore :=
  ReachS.assocIntent _ _ _
    (ReachS.assocPrompt _ _ _
      (ReachS.create _ _ _ _ _ ReachS.empty rfl (by decide))
      (by decide))
    (by decide)

theorem C1_index_duality_witness :
    ReachS dualityWitnessStore ∧
    ((dualityWitnessStore.cache_entries.lookup "e1").isSome = true) ∧
    ((dualityWitnessStore.prompt_to_entry_id "what is recursion" = some "e1" ↔
        ∃ ps, dualityWitnessStore.entry_id_to_prompts "e1" = some ps ∧
          "what is recursion" ∈ ps) ∧
     (dualityWitnessStore.intent_to_entry_id
          (IntentResult.mk "DefineConcept" "recursion" (27/50) "rule") = some "e1" ↔
        ∃ ks, dualityWitnessStore.entry_id_to_intents "e1" = some ks ∧
          IntentResult.mk "DefineConcept" "recursion" (27/50) "rule" ∈ ks)) :=
  ⟨dualityWitnessStore_reach, by decide,
    C1_index_duality dualityWitnessStore "e1" "what is recursion"
      (IntentResult.mk "DefineConcept" "recursion" (27/50) "rule")
      dualityWitnessStore_reach (by decide)⟩

/-- Claim C9: evicting an id that is absent from the entry map is a no op on
every component of a store satisfying the structural invariant, and eviction
is idempotent on every store whatsoever. -/
theorem C9_evict_absent_noop (s : Store) (id : String) :
    (Inv s → s.cache_entries.lookup id = none → evict_entry id s = s) ∧
    evict_entry id (evict_entry id s) = evict_entry id s := by
  constructor
  · intro hs h
    have hrevnone : s.entry_id_to_prompts id = none := by
      rcases hrev : s.entry_id_to_prompts id with _ | ps
      · rfl
      · have hd := hs.domP id
        rw [hrev, h] at hd
        cases hd
    have hrevInone : s.entry_id_to_intents id = none := by
      rcases hrev : s.entry_id_to_intents id with _ | ks
      · rfl
      · have hd := hs.domI id
        rw [hrev, h] at hd
        cases hd
    refine Store.ext ?_ ?_ ?_ ?_ ?_
    · exact filter_eq_self_of_lookup_none s.cache_entries id h
    · funext q
      show (if q ∈ (s.entry_id_to_prompts id).getD [] then none
            else s.prompt_to_entry_id q) = _
      rw [hrevnone]
      simp
    · funext x
      show (if x = id then none else s.entry_id_to_prompts x) = _
      by_cases hx : x = id
      · rw [if_pos hx, hx, hrevnone]
      · rw [if_neg hx]
    · funext q
      show (if q ∈ (s.entry_id_to_intents id).getD [] then none
            else s.intent_to_entry_id q) = _
      rw [hrevInone]
      simp
    · funext x
      show (if x = id then none else s.entry_id_to_intents x) = _
      by_cases hx : x = id
      · rw [if_pos hx, hx, hrevInone]
      · rw [if_neg hx]
  · have hrev2 : (evict_entry id s).entry_id_to_prompts id = none := by
      show (if id = id then none else s.entry_id_to_prompts id) = none
      rw [if_pos rfl]
    have hrevI2 : (evict_entry id s).entry_id_to_intents id = none := by
      show (if id = id then none else s.entry_id_to_intents id) = none
      rw [if_pos rfl]
    refine Store.ext ?_ ?_ ?_ ?_ ?_
    · show ((s.cache_entries.filter (fun kv => !(kv.1 == id))).filter
          (fun kv => !(kv.1 == id))) = _
      rw [List.filter_filter]
      simp only [Bool.and_self]
      rfl
    · funext q
      show (if q ∈ ((evict_entry id s).entry_id_to_prompts id).getD [] then none
            else (evict_entry id s).prompt_to_entry_id q) = _
      rw [hrev2]
      simp
    · funext x
      show (if x = id then none else (evict_entry id s).entry_id_to_prompts x) = _
      by_cases hx : x = id
      · rw [if_pos hx, hx, hrev2]
      · rw [if_neg hx]
    · funext q
      show (if q ∈ ((evict_entry id s).entry_id_to_intents id).getD [] then none
            else (evict_entry id s).intent_to_entry_id q) = _
      rw [hrevI2]
      simp
    · funext x
      show (if x = id then none else (evict_entry id s).entry_id_to_intents x) = _
      by_cases hx : x = id
      · rw [if_pos hx, hx, hrevI2]
      · rw [if_neg hx]

/-- The confidence formula as the spec states it, written as one expression:
the base table value with default seven tenths, multiplied by the inlined
subject specificity, multiplied by the inlined pattern strength, minus the
noise penalty when noise was removed, clamped to the unit interval and rounded
to two decimals. -/
def confidence_spec_formula (intent subject pattern : String) (noise_removed : Bool) : ℚ :=
  pyRound2 (max 0 (min
    (((INTENT_BASE_CONFIDENCE.lookup intent).getD (7/10)
        * (if subject = "it" ∨ subject = "this" ∨ subject = "that" ∨ subject = "something"
              ∨ subject = "error" ∨ subject = "issue" then 4/10
           else min 1 (6/10 + (1/10) * (((pySplit subject).length : ℚ))))
        * (if pattern.length > 70 then 1
           else if pattern.length > 40 then 9/10 else 8/10))
      - (if noise_removed then 5/100 else 0)) 1))

/-- Claim C7: the confidence computed by compute_confidence equals exactly the
formula of the spec: base confidence with default 0.7, times subject
specificity, times pattern strength, minus 0.05 when noise was removed,
clamped to the unit interval and rounded to two decimals. -/
theorem C7_confidence_formula (intent subject pattern : String) (noise : Bool) :
    compute_confidence intent subject pattern noise
      = confidence_spec_formula intent subject pattern noise := by
  cases noise <;>
    simp [compute_confidence, confidence_spec_formula, subject_specificity,
      pattern_strength, generic_subjects, NOISE_PENALTY, List.mem_cons]

theorem canonical_pair_comm (a b : String) : canonical_pair a b = canonical_pair b a := by
  unfold canonical_pair
  rcases lt_trichotomy (collapse a) (collapse b) with h | h | h
  · rw [if_neg (asymm h), if_pos h]
  · rw [if_neg (by rw [h]; exact lt_irrefl _), if_neg (by rw [h]; exact lt_irrefl _), h]
  · rw [if_pos h, if_neg (asymm h)]

set_option maxRecDepth 40000 in
/-- Claim C8: symmetric pair canonicalization. The finalized subject of a
comparison intent is the ascending lexicographic sort of the two whitespace
collapsed phrases joined by a single space, hence invariant under swapping the
phrases, and the two probe prompts of the spec produce identical extraction
results with the subject tcp udp. -/
theorem C8_symmetric_canonicalization :
    (∀ a b : String, canonical_pair a b = canonical_pair b a) ∧
    (∀ a b : String, canonical_pair a b =
      min (collapse a) (collapse b) ++ " " ++ max (collapse a) (collapse b)) ∧
    extract_intent "difference between tcp and udp" = extract_intent "compare udp and tcp" ∧
    (extract_intent "difference between tcp and udp").map
        (fun r => (r.intent, r.subject)) = some ("DifferenceBetween", "tcp udp") := by
  refine ⟨canonical_pair_comm, ?_, of_decide_eq_true (by with_unfolding_all rfl),
    of_decide_eq_true (by with_unfolding_all rfl)⟩
  intro a b
  unfold canonical_pair
  rcases lt_trichotomy (collapse a) (collapse b) with h | h | h
  · rw [if_neg (asymm h), min_eq_left (le_of_lt h), max_eq_right (le_of_lt h)]
  · rw [if_neg (by rw [h]; exact lt_irrefl _), min_eq_left (le_of_eq h),
      max_eq_right (le_of_eq h)]
  · rw [if_pos h, min_eq_right (le_of_lt h), max_eq_left (le_of_lt h)]

theorem exactStep_inl (now : ℚ) (p : String) (s : Store) (r : CacheDecision × Store)
    (h : exactStep now p s = Sum.inl r) :
    r.1.hit_type = HitType.exact ∧ r.1.confidence = 1 := by
  unfold exactStep at h
  rcases h1 : get_entry_id_by_prompt p s with _ | id <;> simp only [h1] at h
  · cases h
  · rcases h2 : s.cache_entries.lookup id with _ | ent <;> simp only [h2] at h
    · cases h
    · by_cases h3 : now ≤ ent.expires_at
      · rw [if_pos h3] at h
        cases h
        exact ⟨rfl, rfl⟩
      · rw [if_neg h3] at h
        cases h

theorem intentStep_inl (now : ℚ) (p : String) (s : Store) (r : CacheDecision × Store)
    (h : intentStep now p s = Sum.inl r) :
    r.1.hit_type = HitType.intent ∧ r.1.confidence = 7/10 := by
  unfold intentStep at h
  by_cases hg : should_try_intent p = true
  · rw [if_pos hg] at h
    rcases h1 : extract_intent p with _ | key <;> simp only [h1] at h
    · cases h
    · rcases h2 : s.intent_to_entry_id key with _ | id <;> simp only [h2] at h
      · cases h
      · rcases h3 : s.cache_entries.lookup id with _ | ent <;> simp only [h3] at h
        · cases h
        · by_cases h4 : now ≤ ent.expires_at
          · rw [if_pos h4] at h
            cases h
            exact ⟨rfl, rfl⟩
          · rw [if_neg h4] at h
            cases h
  · rw [if_neg hg] at h
    cases h

/-- Claim C2 amended: whenever decide_cache classifies a request as an intent
hit, the confidence of the returned decision is the placeholder constant 0.7
of cache.py line 101, irrespective of the confidence the extractor computed
for the prompt. -/
theorem C2_intent_confidence_amended (now : ℚ) (p : String) (s : Store)
    (h : ((decide_cache now p s).1).hit_type = HitType.intent) :
    ((decide_cache now p s).1).confidence = 7/10 := by
  unfold decide_cache at h ⊢
  rcases hE : exactStep now (clean p) s with r | s1 <;> simp only [hE] at h ⊢
  · have hx := (exactStep_inl now (clean p) s r hE).1
    rw [hx] at h
    cases h
  · rcases hI : intentStep now (clean p) s1 with r | s2 <;> simp only [hI] at h ⊢
    · exact (intentStep_inl now (clean p) s1 r hI).2
    · cases h

/-- The store after recording the response R for the prompt what is recursion
at time zero with TTL one hundred, from the empty store, with entry id e1. -/
def writeWhatIsRecursion : Store :=
  set_in_cache 0 "e1" "what is recursion" "R" 100 emptyStore

set_option maxRecDepth 40000 in
/-- Claim C2 counterexample: after recording a response for the prompt what is
recursion, deciding the prompt define recursion is an intent hit whose
decision confidence is 0.7 while the extractor computes confidence 0.54 for
that prompt; the two differ, refuting the claim that the decision carries the
confidence of the extractor. -/
theorem C2_intent_confidence_counterexample :
    (decide_cache 1 "define recursion" writeWhatIsRecursion).1.hit_type = HitType.intent ∧
    (decide_cache 1 "define recursion" writeWhatIsRecursion).1.confidence = 7/10 ∧
    (extract_intent (clean "define recursion")).map (fun r => r.confidence) = some (27/50) ∧
    ¬ ((7 : ℚ)/10 = 27/50) :=
  of_decide_eq_true (by with_unfolding_all rfl)

theorem C2_intent_confidence_amended_witness :
    ((decide_cache 1 "define recursion" writeWhatIsRecursion).1).hit_type = HitType.intent ∧
    ((decide_cache 1 "define recursion" writeWhatIsRecursion).1).confidence = 7/10 :=
  ⟨C2_intent_confidence_counterexample.1,
   C2_intent_confidence_amended 1 "define recursion" writeWhatIsRecursion
     C2_intent_confidence_counterexample.1⟩

/-- Modelled from the spec: the intent key used for lookup purposes is the
string formed of the intent label, a colon, and the subject. The spec states
this, and so do the docstrings of rule_intent.py lines 5 to 7 and 136 to 139
and of associate_intent_to_entry in cache_store.py line 105; the code instead
returns and keys by the whole IntentResult record, whose class is moreover
missing from app.types.cache_decision. -/
def intent_key_spec (prompt : String) : Option String :=
  (extract_intent prompt).map (fun r => r.intent ++ ":" ++ r.subject)

set_option maxRecDepth 40000 in
/-- Claim C3 divergence: the prompts what is recursion and what is recursion
basics both have the spec intent key DefineConcept colon recursion, yet their
extraction results are distinct records because noise stripping lowers the
confidence of the second; after recording the first prompt, whose record does
reach the intent index, deciding the second prompt misses, where keying by the
intent colon subject string would have produced an intent hit. -/
theorem C3_intent_key_divergence :
    intent_key_spec (clean "what is recursion") = some "DefineConcept:recursion" ∧
    intent_key_spec (clean "what is recursion basics") = some "DefineConcept:recursion" ∧
    ¬ (extract_intent (clean "what is recursion")
        = extract_intent (clean "what is recursion basics")) ∧
    (extract_intent (clean "what is recursion")).bind
        (fun k => writeWhatIsRecursion.intent_to_entry_id k) = some "e1" ∧
    (decide_cache 1 "what is recursion basics" writeWhatIsRecursion).1.hit_type
        = HitType.miss :=
  of_decide_eq_true (by with_unfolding_all rfl)

/-- Claim C10: a pure miss mutates nothing. When the cleaned prompt has no
forward mapping and the intent path cannot produce a mapped key, because the
guardrail rejects the prompt, or the extractor returns none, or the extracted
key is unmapped, the decision is a miss with no entry, zero confidence and
zero remaining TTL, and the store is returned exactly as it was. -/
theorem C10_pure_miss_frame (now : ℚ) (p : String) (s : Store)
    (hfwd : s.prompt_to_entry_id (clean p) = none)
    (hintent : should_try_intent (clean p) = false ∨ extract_intent (clean p) = none ∨
      ∀ k, extract_intent (clean p) = some k → s.intent_to_entry_id k = none) :
    decide_cache now p s = (⟨HitType.miss, none, 0, 0⟩, s) := by
  have hE : exactStep now (clean p) s = Sum.inr s := by
    unfold exactStep get_entry_id_by_prompt
    rw [hfwd]
  have hI : intentStep now (clean p) s = Sum.inr s := by
    unfold intentStep
    by_cases hg : should_try_intent (clean p) = true
    · rw [if_pos hg]
      rcases hex : extract_intent (clean p) with _ | k
      · simp only [hex]
      · simp only [hex]
        rcases hintent with hguard | hnone | hkey
        · rw [hg] at hguard
          cases hguard
        · rw [hex] at hnone
          cases hnone
        · simp only [hkey k hex]
    · rw [if_neg hg]
  unfold decide_cache
  simp only [hE, hI]

theorem C10_pure_miss_frame_witness :
    emptyStore.prompt_to_entry_id (clean "tell me a joke") = none ∧
    extract_intent (clean "tell me a joke") = none ∧
    decide_cache 3 "tell me a joke" emptyStore = (⟨HitType.miss, none, 0, 0⟩, emptyStore) :=
  ⟨rfl, by decide,
   C10_pure_miss_frame 3 "tell me a joke" emptyStore rfl (Or.inr (Or.inl (by decide)))⟩

theorem assocP_cache_entries (p e : String) (s : Store) :
    (associate_prompt_to_entry p e s).cache_entries = s.cache_entries := by
  rcases h : s.prompt_to_entry_id p with _ | old <;>
    simp only [associate_prompt_to_entry, h]
  by_cases ho : old ≠ "" <;> simp [ho]

theorem assocI_cache_entries (k : IntentResult) (e : String) (s : Store) :
    (associate_intent_to_entry k e s).cache_entries = s.cache_entries := by
  rcases h : s.intent_to_entry_id k with _ | old <;>
    simp only [associate_intent_to_entry, h]
  by_cases ho : old ≠ "" <;> simp [ho]

theorem mru_length_le (id : String) (s : Store) :
    (mru_update id s).cache_entries.length ≤ s.cache_entries.length := by
  unfold mru_update
  rcases h : s.cache_entries.lookup id with _ | ent <;> simp only [h]
  · exact Nat.le_refl _
  · rw [List.length_append]
    have := length_filter_lt_of_lookup_some s.cache_entries id ent h
    simpa using this

theorem evict_length_le (id : String) (s : Store) :
    (evict_entry id s).cache_entries.length ≤ s.cache_entries.length :=
  List.length_filter_le _ _

theorem head_lookup {β : Type} (l : List (String × β)) (kv : String × β)
    (h : l.head? = some kv) : l.lookup kv.1 = some kv.2 := by
  cases l with
  | nil => cases h
  | cons a t =>
    cases h
    rw [lookup_cons, if_pos rfl]

theorem exactStep_inl_length (now : ℚ) (p : String) (s : Store) (r : CacheDecision × Store)
    (h : exactStep now p s = Sum.inl r) :
    r.2.cache_entries.length ≤ s.cache_entries.length := by
  unfold exactStep at h
  rcases h1 : get_entry_id_by_prompt p s with _ | id <;> simp only [h1] at h
  · cases h
  · rcases h2 : s.cache_entries.lookup id with _ | ent <;> simp only [h2] at h
    · cases h
    · by_cases h3 : now ≤ ent.expires_at
      · rw [if_pos h3] at h
        cases h
        exact mru_length_le id s
      · rw [if_neg h3] at h
        cases h

theorem exactStep_inr_length (now : ℚ) (p : String) (s s1 : Store)
    (h : exactStep now p s = Sum.inr s1) :
    s1.cache_entries.length ≤ s.cache_entries.length := by
  unfold exactStep at h
  rcases h1 : get_entry_id_by_prompt p s with _ | id <;> simp only [h1] at h
  · cases h
    exact Nat.le_refl _
  · rcases h2 : s.cache_entries.lookup id with _ | ent <;> simp only [h2] at h
    · cases h
      exact Nat.le_refl _
    · by_cases h3 : now ≤ ent.expires_at
      · rw [if_pos h3] at h
        cases h
      · rw [if_neg h3] at h
        cases h
        exact evict_length_le id s

theorem intentStep_inl_length (now : ℚ) (p : String) (s : Store) (r : CacheDecision × Store)
    (h : intentStep now p s = Sum.inl r) :
    r.2.cache_entries.length ≤ s.cache_entries.length := by
  unfold intentStep at h
  by_cases hg : should_try_intent p = true
  · rw [if_pos hg] at h
    rcases h1 : extract_intent p with _ | key <;> simp only [h1] at h
    · cases h
    · rcases h2 : s.intent_to_entry_id key with _ | id <;> simp only [h2] at h
      · cases h
      · rcases h3 : s.cache_entries.lookup id with _ | ent <;> simp only [h3] at h
        · cases h
        · by_cases h4 : now ≤ ent.expires_at
          · rw [if_pos h4] at h
            cases h
            show (associate_prompt_to_entry p id
              (mru_update id s)).cache_entries.length ≤ _
            rw [assocP_cache_entries]
            exact mru_length_le id s
          · rw [if_neg h4] at h
            cases h
  · rw [if_neg hg] at h
    cases h

theorem intentStep_inr_length (now : ℚ) (p : String) (s s1 : Store)
    (h : intentStep now p s = Sum.inr s1) :
    s1.cache_entries.length ≤ s.cache_entries.length := by
  unfold intentStep at h
  by_cases hg : should_try_intent p = true
  · rw [if_pos hg] at h
    rcases h1 : extract_intent p with _ | key <;> simp only [h1] at h
    · cases h
      exact Nat.le_refl _
    · rcases h2 : s.intent_to_entry_id key with _ | id <;> simp only [h2] at h
      · cases h
        exact Nat.le_refl _
      · rcases h3 : s.cache_entries.lookup id with _ | ent <;> simp only [h3] at h
        · cases h
          exact Nat.le_refl _
        · by_cases h4 : now ≤ ent.expires_at
          · rw [if_pos h4] at h
            cases h
          · rw [if_neg h4] at h
            cases h
            exact evict_length_le id s
  · rw [if_neg hg] at h
    cases h
    exact Nat.le_refl _

theorem decideStep_length_le (now : ℚ) (p : String) (s : Store) :
    ((decide_cache now p s).2).cache_entries.length ≤ s.cache_entries.length := by
  unfold decide_cache
  rcases hE : exactStep now (clean p) s with r | s1 <;> simp only [hE]
  · exact exactStep_inl_length now (clean p) s r hE
  · have hs1 := exactStep_inr_length now (clean p) s s1 hE
    rcases hI : intentStep now (clean p) s1 with r | s2 <;> simp only [hI]
    · exact Nat.le_trans (intentStep_inl_length now (clean p) s1 r hI) hs1
    · exact Nat.le_trans (intentStep_inr_length now (clean p) s1 s2 hI) hs1

theorem enforce_capacity_length (cap : ℕ) (s3 : Store)
    (h : s3.cache_entries.length ≤ cap + 1) :
    (enforce_capacity cap s3).cache_entries.length ≤ cap := by
  unfold enforce_capacity
  by_cases h3 : s3.cache_entries.length > cap
  · rw [if_pos h3]
    rcases h4 : s3.cache_entries.head? with _ | kv <;> simp only [h4]
    · rw [List.head?_eq_none_iff] at h4
      rw [h4] at h3
      cases h3
    · have hl := head_lookup _ kv h4
      have hless := length_filter_lt_of_lookup_some s3.cache_entries kv.1 kv.2 hl
      show (s3.cache_entries.filter _).length ≤ cap
      omega
  · rw [if_neg h3]
    omega

theorem set_cap_length_le (cap : ℕ) (now : ℚ) (id p r : String) (ttl : ℚ) (s : Store)
    (h : s.cache_entries.length ≤ cap) :
    (set_in_cache_cap cap now id p r ttl s).cache_entries.length ≤ cap := by
  unfold set_in_cache_cap
  rcases h1 : get_entry_id_by_prompt (clean p) s with _ | old <;> simp only [h1]
  · -- create path: entries grow by exactly one before capacity enforcement
    have hadd : ∀ s3 : Store,
        s3.cache_entries = s.cache_entries ++ [(id, Entry.mk r (now + ttl))] →
        (enforce_capacity cap s3).cache_entries.length ≤ cap := by
      intro s3 hent
      apply enforce_capacity_length
      rw [hent, List.length_append]
      simpa using h
    rcases h2 : extract_intent (clean p) with _ | key <;> simp only [h2]
    · apply hadd
      rw [assocP_cache_entries]
      rfl
    · by_cases hg : should_try_intent (clean p) = true
      · rw [if_pos hg]
        apply hadd
        rw [assocI_cache_entries, assocP_cache_entries]
        rfl
      · rw [if_neg hg]
        apply hadd
        rw [assocP_cache_entries]
        rfl
  · -- update path
    refine Nat.le_trans (mru_length_le old _) ?_
    show (s.cache_entries.map _).length ≤ cap
    rw [List.length_map]
    exact h

/-! ### Pointwise effect lemmas for the store operations -/

theorem create_lookup (id r : String) (ttl now : ℚ) (s : Store) (k : String) :
    (create_entry id r ttl now s).cache_entries.lookup k
      = match s.cache_entries.lookup k with
        | some w => some w
        | none => if k = id then some (Entry.mk r (now + ttl)) else none := by
  show (s.cache_entries ++ [(id, Entry.mk r (now + ttl))]).lookup k = _
  rw [lookup_append_single s.cache_entries id k (Entry.mk r (now + ttl))]
  cases s.cache_entries.lookup k <;> rfl

theorem create_forwardP (id r : String) (ttl now : ℚ) (s : Store) :
    (create_entry id r ttl now s).prompt_to_entry_id = s.prompt_to_entry_id := rfl

theorem create_forwardI (id r : String) (ttl now : ℚ) (s : Store) :
    (create_entry id r ttl now s).intent_to_entry_id = s.intent_to_entry_id := rfl

theorem create_revP (id r : String) (ttl now : ℚ) (s : Store) (x : String) :
    (create_entry id r ttl now s).entry_id_to_prompts x
      = if x = id then some [] else s.entry_id_to_prompts x := rfl

theorem create_revI (id r : String) (ttl now : ℚ) (s : Store) (x : String) :
    (create_entry id r ttl now s).entry_id_to_intents x
      = if x = id then some [] else s.entry_id_to_intents x := rfl

theorem assocP_forward (p e : String) (s : Store) (q : String) :
    (associate_prompt_to_entry p e s).prompt_to_entry_id q
      = if q = p then some e else s.prompt_to_entry_id q := by
  rcases h : s.prompt_to_entry_id p with _ | old <;>
    simp only [associate_prompt_to_entry, h]
  by_cases ho : old ≠ "" <;> simp [ho]

theorem assocP_forwardI (p e : String) (s : Store) :
    (associate_prompt_to_entry p e s).intent_to_entry_id = s.intent_to_entry_id := by
  rcases h : s.prompt_to_entry_id p with _ | old <;>
    simp only [associate_prompt_to_entry, h]
  by_cases ho : old ≠ "" <;> simp [ho]

theorem assocP_revI (p e : String) (s : Store) :
    (associate_prompt_to_entry p e s).entry_id_to_intents = s.entry_id_to_intents := by
  rcases h : s.prompt_to_entry_id p with _ | old <;>
    simp only [associate_prompt_to_entry, h]
  by_cases ho : old ≠ "" <;> simp [ho]

theorem assocP_revP_of_none (p e : String) (s : Store)
    (h : s.prompt_to_entry_id p = none) (x : String) :
    (associate_prompt_to_entry p e s).entry_id_to_prompts x
      = if x = e then (s.entry_id_to_prompts x).map (fun ps => setAdd ps p)
        else s.entry_id_to_prompts x := by
  simp only [associate_prompt_to_entry, h]

theorem assocI_forward (key : IntentResult) (e : String) (s : Store) (q : IntentResult) :
    (associate_intent_to_entry key e s).intent_to_entry_id q
      = if q = key then some e else s.intent_to_entry_id q := by
  rcases h : s.intent_to_entry_id key with _ | old <;>
    simp only [associate_intent_to_entry, h]
  by_cases ho : old ≠ "" <;> simp [ho]

theorem assocI_forwardP (key : IntentResult) (e : String) (s : Store) :
    (associate_intent_to_entry key e s).prompt_to_entry_id = s.prompt_to_entry_id := by
  rcases h : s.intent_to_entry_id key with _ | old <;>
    simp only [associate_intent_to_entry, h]
  by_cases ho : old ≠ "" <;> simp [ho]

theorem assocI_revP (key : IntentResult) (e : String) (s : Store) :
    (associate_intent_to_entry key e s).entry_id_to_prompts = s.entry_id_to_prompts := by
  rcases h : s.intent_to_entry_id key with _ | old <;>
    simp only [associate_intent_to_entry, h]
  by_cases ho : old ≠ "" <;> simp [ho]

theorem assocI_revI_of_ne_old (key : IntentResult) (e : String) (s : Store)
    (hne : ∀ old, s.intent_to_entry_id key = some old → old ≠ e) :
    (associate_intent_to_entry key e s).entry_id_to_intents e
      = (s.entry_id_to_intents e).map (fun ks => setAdd ks key) := by
  rcases h : s.intent_to_entry_id key with _ | old
  · simp [associate_intent_to_entry, h]
  · have hoe : ¬ e = old := fun he => hne old h he.symm
    simp only [associate_intent_to_entry, h]
    by_cases ho : old ≠ "" <;> simp [ho, hoe]

theorem assocI_revI_ne_self (key : IntentResult) (e : String) (s : Store) (x : String)
    (hxe : x ≠ e) (hxold : ∀ old, s.intent_to_entry_id key = some old → x ≠ old) :
    (associate_intent_to_entry key e s).entry_id_to_intents x
      = s.entry_id_to_intents x := by
  rcases h : s.intent_to_entry_id key with _ | old
  · simp [associate_intent_to_entry, h, hxe]
  · have hxo := hxold old h
    simp only [associate_intent_to_entry, h]
    by_cases ho : old ≠ "" <;> simp [ho, hxe, hxo]

theorem evict_lookup (id : String) (s : Store) (k : String) :
    (evict_entry id s).cache_entries.lookup k
      = if k = id then none else s.cache_entries.lookup k := by
  show (s.cache_entries.filter (fun kv => !(kv.1 == id))).lookup k = _
  exact lookup_filter _ _ _

theorem evict_forwardP (id : String) (s : Store) (q : String) :
    (evict_entry id s).prompt_to_entry_id q
      = if q ∈ (s.entry_id_to_prompts id).getD [] then none
        else s.prompt_to_entry_id q := rfl

theorem evict_forwardI (id : String) (s : Store) (k : IntentResult) :
    (evict_entry id s).intent_to_entry_id k
      = if k ∈ (s.entry_id_to_intents id).getD [] then none
        else s.intent_to_entry_id k := rfl

theorem evict_revP (id : String) (s : Store) (x : String) :
    (evict_entry id s).entry_id_to_prompts x
      = if x = id then none else s.entry_id_to_prompts x := rfl

theorem evict_revI (id : String) (s : Store) (x : String) :
    (evict_entry id s).entry_id_to_intents x
      = if x = id then none else s.entry_id_to_intents x := rfl

theorem enforce_eq_of_le (cap : ℕ) (s3 : Store)
    (h : ¬ s3.cache_entries.length > cap) : enforce_capacity cap s3 = s3 := by
  unfold enforce_capacity
  rw [if_neg h]

theorem enforce_eq_evict (cap : ℕ) (s3 : Store) (hd : String × Entry)
    (h : s3.cache_entries.length > cap) (hh : s3.cache_entries.head? = some hd) :
    enforce_capacity cap s3 = evict_entry hd.1 s3 := by
  unfold enforce_capacity
  rw [if_pos h]
  simp only [hh]

/-- Claim C5: LRU eviction under capacity. When a write creates a new entry
while the store is exactly at capacity, the entry evicted is the one at the
head of the recency order, the least recently used entry, and all other
entries survive in order, with the new entry appended at the tail. -/
theorem C5_lru_eviction (cap : ℕ) (now : ℚ) (id p r : String) (ttl : ℚ) (s : Store)
    (hfull : s.cache_entries.length = cap)
    (hcons : s.cache_entries ≠ [])
    (hp : s.prompt_to_entry_id (clean p) = none)
    (hnodup : (s.cache_entries.map Prod.fst).Nodup)
    (hid : s.cache_entries.lookup id = none) :
    (set_in_cache_cap cap now id p r ttl s).cache_entries
      = s.cache_entries.tail ++ [(id, Entry.mk r (now + ttl))] := by
  unfold set_in_cache_cap
  simp only [get_entry_id_by_prompt, hp]
  have hadd : ∀ s3 : Store,
      s3.cache_entries = s.cache_entries ++ [(id, Entry.mk r (now + ttl))] →
      (enforce_capacity cap s3).cache_entries
        = s.cache_entries.tail ++ [(id, Entry.mk r (now + ttl))] := by
    intro s3 hent
    rcases hsplit : s.cache_entries with _ | ⟨hd, tl⟩
    · exact absurd hsplit hcons
    · have hlen : s3.cache_entries.length = cap + 1 := by
        rw [hent, List.length_append, hfull]
        rfl
      have hhead : s3.cache_entries.head? = some hd := by
        rw [hent, hsplit]
        rfl
      rw [enforce_eq_evict cap s3 hd (by rw [hlen]; exact Nat.lt_succ_self cap) hhead]
      show s3.cache_entries.filter (fun kv => !(kv.1 == hd.1)) = _
      rw [hent, hsplit, List.filter_append]
      have hnotl : tl.lookup hd.1 = none := by
        rw [lookup_none_iff]
        rw [hsplit, List.map_cons] at hnodup
        exact (List.nodup_cons.mp hnodup).1
      have h1 : (hd :: tl).filter (fun kv => !(kv.1 == hd.1)) = tl := by
        rw [List.filter_cons]
        have : (!(hd.1 == hd.1)) = false := by simp
        rw [this, if_neg Bool.false_ne_true]
        exact filter_eq_self_of_lookup_none tl hd.1 hnotl
      have hidne : ¬ id = hd.1 := by
        intro he
        rw [hsplit, lookup_cons, if_pos he] at hid
        cases hid
      have h2 : ([(id, Entry.mk r (now + ttl))]).filter (fun kv => !(kv.1 == hd.1))
          = [(id, Entry.mk r (now + ttl))] := by
        have : (!(id == hd.1)) = true := by simp [hidne]
        simp [List.filter_cons, this]
      rw [h1, h2]
      rfl
  rcases h2 : extract_intent (clean p) with _ | key <;> simp only [h2]
  · apply hadd
    rw [assocP_cache_entries]
    rfl
  · by_cases hg : should_try_intent (clean p) = true
    · rw [if_pos hg]
      apply hadd
      rw [assocI_cache_entries, assocP_cache_entries]
      rfl
    · rw [if_neg hg]
      apply hadd
      rw [assocP_cache_entries]
      rfl

/-- The stores of the LRU probe scenario of the spec at capacity three: write
the prompts a, b and c, then touch a through an exact hit decision. -/
def lruA : Store := set_in_cache_cap 3 0 "e1" "a" "ra" 100 emptyStore

def lruB : Store := set_in_cache_cap 3 1 "e2" "b" "rb" 100 lruA

def lruC : Store := set_in_cache_cap 3 2 "e3" "c" "rc" 100 lruB

def lruTouched : Store := (decide_cache 3 "a" lruC).2

set_option maxRecDepth 40000 in
theorem C5_lru_eviction_witness :
    lruTouched.cache_entries.length = 3 ∧
    lruTouched.cache_entries ≠ [] ∧
    lruTouched.prompt_to_entry_id (clean "d") = none ∧
    (lruTouched.cache_entries.map Prod.fst).Nodup ∧
    lruTouched.cache_entries.lookup "e4" = none ∧
    (set_in_cache_cap 3 4 "e4" "d" "rd" 100 lruTouched).cache_entries
      = lruTouched.cache_entries.tail ++ [("e4", Entry.mk "rd" (4 + 100))] ∧
    lruTouched.cache_entries.map Prod.fst = ["e2", "e3", "e1"] ∧
    lruTouched.prompt_to_entry_id "b" = some "e2" ∧
    (set_in_cache_cap 3 4 "e4" "d" "rd" 100 lruTouched).cache_entries.map Prod.fst
      = ["e3", "e1", "e4"] :=
  have h1 : lruTouched.cache_entries.length = 3 :=
    of_decide_eq_true (by with_unfolding_all rfl)
  have h2 : lruTouched.cache_entries ≠ [] :=
    of_decide_eq_true (by with_unfolding_all rfl)
  have h3 : lruTouched.prompt_to_entry_id (clean "d") = none :=
    of_decide_eq_true (by with_unfolding_all rfl)
  have h4 : (lruTouched.cache_entries.map Prod.fst).Nodup :=
    of_decide_eq_true (by with_unfolding_all rfl)
  have h5 : lruTouched.cache_entries.lookup "e4" = none :=
    of_decide_eq_true (by with_unfolding_all rfl)
  ⟨h1, h2, h3, h4, h5,
   C5_lru_eviction 3 4 "e4" "d" "rd" 100 lruTouched h1 h2 h3 h4 h5,
   of_decide_eq_true (by with_unfolding_all rfl),
   of_decide_eq_true (by with_unfolding_all rfl),
   of_decide_eq_true (by with_unfolding_all rfl)⟩

/-- Decision level core of the TTL expiry claim: if the store holds an
expired entry for the cleaned prompt, the prompt is the only one mapping to
it, its reverse prompt set holds exactly that prompt, any intent key the
prompt extracts under the guardrail sits in its reverse intent set, and every
intent key mapping to it sits in that set, then deciding the prompt yields a
miss and the entry disappears from every component. -/
theorem ttl_decide_core (now1 : ℚ) (p id : String) (ent : Entry) (s1 : Store)
    (hexp : ¬ now1 ≤ ent.expires_at)
    (hB1 : s1.cache_entries.lookup id = some ent)
    (hB2 : s1.prompt_to_entry_id (clean p) = some id)
    (hB3 : ∀ q, q ≠ clean p → s1.prompt_to_entry_id q ≠ some id)
    (hB4 : s1.entry_id_to_prompts id = some [clean p])
    (hB5 : ∀ k, should_try_intent (clean p) = true → extract_intent (clean p) = some k →
        k ∈ (s1.entry_id_to_intents id).getD [])
    (hB6 : ∀ k, s1.intent_to_entry_id k = some id →
        k ∈ (s1.entry_id_to_intents id).getD []) :
    (decide_cache now1 p s1).1 = CacheDecision.mk HitType.miss none 0 0 ∧
    ((decide_cache now1 p s1).2).cache_entries.lookup id = none ∧
    (∀ v : Entry, ¬ ((id, v) ∈ ((decide_cache now1 p s1).2).cache_entries)) ∧
    (∀ q, ((decide_cache now1 p s1).2).prompt_to_entry_id q ≠ some id) ∧
    ((decide_cache now1 p s1).2).entry_id_to_prompts id = none ∧
    (∀ k, ((decide_cache now1 p s1).2).intent_to_entry_id k ≠ some id) ∧
    ((decide_cache now1 p s1).2).entry_id_to_intents id = none := by
  have hE : exactStep now1 (clean p) s1 = Sum.inr (evict_entry id s1) := by
    unfold exactStep get_entry_id_by_prompt
    simp only [hB2, hB1]
    rw [if_neg hexp]
  have hI : intentStep now1 (clean p) (evict_entry id s1) = Sum.inr (evict_entry id s1) := by
    unfold intentStep
    by_cases hg : should_try_intent (clean p) = true
    · rw [if_pos hg]
      rcases hex : extract_intent (clean p) with _ | k
      · simp only [hex]
      · simp only [hex]
        have hk := hB5 k hg hex
        have hnone : (evict_entry id s1).intent_to_entry_id k = none := by
          rw [evict_forwardI, if_pos hk]
        simp only [hnone]
    · rw [if_neg hg]
  have hD : decide_cache now1 p s1 = (⟨HitType.miss, none, 0, 0⟩, evict_entry id s1) := by
    unfold decide_cache
    simp only [hE, hI]
  rw [hD]
  refine ⟨rfl, ?_, ?_, ?_, ?_, ?_, ?_⟩
  · rw [evict_lookup, if_pos rfl]
  · intro v hv
    have hmem := List.of_mem_filter hv
    simp at hmem
  · intro q
    rw [evict_forwardP, hB4]
    by_cases hq : q = clean p
    · rw [if_pos (by simp [hq])]
      intro h
      cases h
    · rw [if_neg (by simp [hq])]
      exact hB3 q hq
  · rw [evict_revP, if_pos rfl]
  · intro k
    by_cases hk : k ∈ (s1.entry_id_to_intents id).getD []
    · rw [evict_forwardI, if_pos hk]
      intro h
      cases h
    · rw [evict_forwardI, if_neg hk]
      intro h
      exact hk (hB6 k h)
  · rw [evict_revI, if_pos rfl]

/-- Capacity level core of the TTL expiry claim: the conclusions of the
decision core hold for the store produced by capacity enforcement over the
post write store characterized by the write path facts. -/
theorem ttl_cap_core (cap : ℕ) (hcap1 : 1 ≤ cap) (now1 : ℚ) (p id : String)
    (ent : Entry) (s s3 : Store) (hs : Inv s)
    (hp : s.prompt_to_entry_id (clean p) = none)
    (hfresh : s.cache_entries.lookup id = none)
    (hexp : ¬ now1 ≤ ent.expires_at)
    (ko : Option IntentResult)
    (hA1 : s3.cache_entries = s.cache_entries ++ [(id, ent)])
    (hA2 : ∀ q, s3.prompt_to_entry_id q
        = if q = clean p then some id else s.prompt_to_entry_id q)
    (hA3 : s3.entry_id_to_prompts id = some [clean p])
    (hA4 : ∀ x, x ≠ id → s3.entry_id_to_prompts x = s.entry_id_to_prompts x)
    (hA5 : ∀ q, s3.intent_to_entry_id q
        = if ko = some q then some id else s.intent_to_entry_id q)
    (hA6 : s3.entry_id_to_intents id = some ko.toList)
    (hko : ∀ k, should_try_intent (clean p) = true →
        extract_intent (clean p) = some k → ko = some k) :
    (decide_cache now1 p (enforce_capacity cap s3)).1
        = CacheDecision.mk HitType.miss none 0 0 ∧
    ((decide_cache now1 p (enforce_capacity cap s3)).2).cache_entries.lookup id = none ∧
    (∀ v : Entry, ¬ ((id, v)
        ∈ ((decide_cache now1 p (enforce_capacity cap s3)).2).cache_entries)) ∧
    (∀ q, ((decide_cache now1 p (enforce_capacity cap s3)).2).prompt_to_entry_id q
        ≠ some id) ∧
    ((decide_cache now1 p (enforce_capacity cap s3)).2).entry_id_to_prompts id = none ∧
    (∀ k, ((decide_cache now1 p (enforce_capacity cap s3)).2).intent_to_entry_id k
        ≠ some id) ∧
    ((decide_cache now1 p (enforce_capacity cap s3)).2).entry_id_to_intents id = none := by
  have hs3id : s3.cache_entries.lookup id = some ent := by
    rw [hA1, lookup_append_single, hfresh]
    simp
  have hfwd_ne : ∀ q, q ≠ clean p → s.prompt_to_entry_id q ≠ some id := by
    intro q _ h
    have hlive := (hs.fwdP q id h).1
    rw [hfresh] at hlive
    cases hlive
  have hint_ne : ∀ k, s.intent_to_entry_id k ≠ some id := by
    intro k h
    have hlive := (hs.fwdI k id h).1
    rw [hfresh] at hlive
    cases hlive
  by_cases hcap : s3.cache_entries.length > cap
  · -- over capacity: the head of the recency order is evicted first
    obtain ⟨hd, tl, hsplit⟩ : ∃ hd tl, s.cache_entries = hd :: tl := by
      rcases hsc : s.cache_entries with _ | ⟨hd, tl⟩
      · exfalso
        rw [hA1, hsc] at hcap
        simp at hcap
        omega
      · exact ⟨hd, tl, rfl⟩
    have hhead : s3.cache_entries.head? = some hd := by
      rw [hA1, hsplit]
      rfl
    have hs1 : enforce_capacity cap s3 = evict_entry hd.1 s3 :=
      enforce_eq_evict cap s3 hd hcap hhead
    have hdlook : s.cache_entries.lookup hd.1 = some hd.2 := by
      rw [hsplit]
      exact head_lookup _ hd rfl
    have hdne : ¬ id = hd.1 := by
      intro he
      rw [← he, hfresh] at hdlook
      cases hdlook
    have hdne2 : hd.1 ≠ id := fun he => hdne he.symm
    have hdlive : (s.cache_entries.lookup hd.1).isSome = true := by
      rw [hdlook]
      rfl
    rw [hs1]
    have hnotin : clean p ∉ (s3.entry_id_to_prompts hd.1).getD [] := by
      rw [hA4 hd.1 hdne2]
      rcases hr : s.entry_id_to_prompts hd.1 with _ | ps
      · simp
      · intro hmem
        have := hs.bwdP hd.1 ps (clean p) hdlive hr (by simpa using hmem)
        rw [hp] at this
        cases this
    refine ttl_decide_core now1 p id ent _ hexp ?_ ?_ ?_ ?_ ?_ ?_
    · rw [evict_lookup, if_neg hdne, hs3id]
    · rw [evict_forwardP, if_neg hnotin, hA2, if_pos rfl]
    · intro q hq
      rw [evict_forwardP]
      by_cases hqm : q ∈ (s3.entry_id_to_prompts hd.1).getD []
      · rw [if_pos hqm]
        intro h
        cases h
      · rw [if_neg hqm, hA2, if_neg hq]
        exact hfwd_ne q hq
    · rw [evict_revP, if_neg hdne, hA3]
    · intro k hg hex
      rw [evict_revI, if_neg hdne, hA6, hko k hg hex]
      simp
    · intro k hk
      rw [evict_forwardI] at hk
      by_cases hkm : k ∈ (s3.entry_id_to_intents hd.1).getD []
      · rw [if_pos hkm] at hk
        cases hk
      · rw [if_neg hkm, hA5] at hk
        by_cases hko2 : ko = some k
        · rw [evict_revI, if_neg hdne, hA6, hko2]
          simp
        · rw [if_neg hko2] at hk
          exact absurd hk (hint_ne k)
  · -- within capacity: enforcement leaves the store unchanged
    have hs1 : enforce_capacity cap s3 = s3 := enforce_eq_of_le cap s3 hcap
    rw [hs1]
    refine ttl_decide_core now1 p id ent _ hexp ?_ ?_ ?_ ?_ ?_ ?_
    · exact hs3id
    · rw [hA2, if_pos rfl]
    · intro q hq
      rw [hA2, if_neg hq]
      exact hfwd_ne q hq
    · exact hA3
    · intro k hg hex
      rw [hA6, hko k hg hex]
      simp
    · intro k hk
      rw [hA5] at hk
      by_cases hko2 : ko = some k
      · rw [hA6, hko2]
        simp
      · rw [if_neg hko2] at hk
        exact absurd hk (hint_ne k)

set_option maxHeartbeats 1000000 in
/-- Claim C4: TTL expiry. After recording a response for a prompt with some
TTL into a store satisfying the structural invariant, where the cleaned
prompt was unmapped and the entry id is fresh and nonempty, a decision
requested for the same prompt at any time strictly later than the stored
expiry returns a miss, and the expired entry is gone from the entry map, the
recency structure, and both directions of both the prompt and the intent
index. The exclusion in the claim about other live entries reachable through
an intent rule is not even needed: the write re points the extracted intent
key to the new entry, so after its eviction the key is unmapped. -/
theorem C4_ttl_expiry (now0 now1 ttl : ℚ) (id p resp : String) (s : Store)
    (hs : Inv s)
    (hp : s.prompt_to_entry_id (clean p) = none)
    (hfresh : s.cache_entries.lookup id = none)
    (hexp : now0 + ttl < now1) :
    (decide_cache now1 p (set_in_cache now0 id p resp ttl s)).1
        = CacheDecision.mk HitType.miss none 0 0 ∧
    ((decide_cache now1 p (set_in_cache now0 id p resp ttl s)).2).cache_entries.lookup id
        = none ∧
    (∀ v : Entry, ¬ ((id, v)
        ∈ ((decide_cache now1 p (set_in_cache now0 id p resp ttl s)).2).cache_entries)) ∧
    (∀ q, ((decide_cache now1 p (set_in_cache now0 id p resp ttl s)).2).prompt_to_entry_id q
        ≠ some id) ∧
    ((decide_cache now1 p (set_in_cache now0 id p resp ttl s)).2).entry_id_to_prompts id
        = none ∧
    (∀ k, ((decide_cache now1 p (set_in_cache now0 id p resp ttl s)).2).intent_to_entry_id k
        ≠ some id) ∧
    ((decide_cache now1 p (set_in_cache now0 id p resp ttl s)).2).entry_id_to_intents id
        = none := by
  have hexp2 : ¬ now1 ≤ (Entry.mk resp (now0 + ttl)).expires_at := by
    show ¬ now1 ≤ now0 + ttl
    exact fun hle => absurd (lt_of_lt_of_le hexp hle) (lt_irrefl (now0 + ttl))
  have hscf : (create_entry id resp ttl now0 s).prompt_to_entry_id (clean p) = none := by
    rw [create_forwardP]
    exact hp
  have hspent : (associate_prompt_to_entry (clean p) id
      (create_entry id resp ttl now0 s)).cache_entries
      = s.cache_entries ++ [(id, Entry.mk resp (now0 + ttl))] := by
    rw [assocP_cache_entries]
    rfl
  have hspfwd : ∀ q, (associate_prompt_to_entry (clean p) id
      (create_entry id resp ttl now0 s)).prompt_to_entry_id q
      = if q = clean p then some id else s.prompt_to_entry_id q := by
    intro q
    rw [assocP_forward, create_forwardP]
  have hsprevid : (associate_prompt_to_entry (clean p) id
      (create_entry id resp ttl now0 s)).entry_id_to_prompts id = some [clean p] := by
    rw [assocP_revP_of_none _ _ _ hscf, if_pos rfl, create_revP, if_pos rfl]
    simp [setAdd]
  have hsprevx : ∀ x, x ≠ id → (associate_prompt_to_entry (clean p) id
      (create_entry id resp ttl now0 s)).entry_id_to_prompts x
      = s.entry_id_to_prompts x := by
    intro x hx
    rw [assocP_revP_of_none _ _ _ hscf, if_neg hx, create_revP, if_neg hx]
  have hspfI : (associate_prompt_to_entry (clean p) id
      (create_entry id resp ttl now0 s)).intent_to_entry_id = s.intent_to_entry_id := by
    rw [assocP_forwardI, create_forwardI]
  have hsprevI : ∀ x, (associate_prompt_to_entry (clean p) id
      (create_entry id resp ttl now0 s)).entry_id_to_intents x
      = if x = id then some [] else s.entry_id_to_intents x := by
    intro x
    rw [assocP_revI, create_revI]
  unfold set_in_cache set_in_cache_cap
  simp only [get_entry_id_by_prompt, hp]
  rcases hex : extract_intent (clean p) with _ | k <;> simp only [hex]
  · -- no intent extracted
    refine ttl_cap_core MAX_CACHE_SIZE (by simp [MAX_CACHE_SIZE]) now1 p id
      (Entry.mk resp (now0 + ttl)) s _ hs hp hfresh hexp2 none
      hspent hspfwd hsprevid hsprevx ?_ ?_ ?_
    · intro q
      rw [hspfI]
      simp
    · rw [hsprevI, if_pos rfl]
      rfl
    · intro k2 _ hex2
      rw [hex] at hex2
      cases hex2
  · by_cases hg : should_try_intent (clean p) = true
    · rw [if_pos hg]
      have hne_old : ∀ old, (associate_prompt_to_entry (clean p) id
          (create_entry id resp ttl now0 s)).intent_to_entry_id k = some old →
          old ≠ id := by
        intro old hold he
        rw [hspfI] at hold
        have hlive := (hs.fwdI k old hold).1
        rw [he, hfresh] at hlive
        cases hlive
      refine ttl_cap_core MAX_CACHE_SIZE (by simp [MAX_CACHE_SIZE]) now1 p id
        (Entry.mk resp (now0 + ttl)) s _ hs hp hfresh hexp2 (some k)
        ?_ ?_ ?_ ?_ ?_ ?_ ?_
      · rw [assocI_cache_entries, hspent]
      · intro q
        rw [assocI_forwardP, hspfwd q]
      · rw [assocI_revP, hsprevid]
      · intro x hx
        rw [assocI_revP, hsprevx x hx]
      · intro q
        rw [assocI_forward, hspfI]
        by_cases hq : q = k
        · simp [hq]
        · have hkq : ¬ k = q := fun h => hq h.symm
          simp [hq, hkq]
      · rw [assocI_revI_of_ne_old k id _ hne_old, hsprevI, if_pos rfl]
        simp [setAdd]
      · intro k2 hg2 hex2
        rw [hex] at hex2
        cases hex2
        rfl
    · rw [if_neg hg]
      refine ttl_cap_core MAX_CACHE_SIZE (by simp [MAX_CACHE_SIZE]) now1 p id
        (Entry.mk resp (now0 + ttl)) s _ hs hp hfresh hexp2 none
        hspent hspfwd hsprevid hsprevx ?_ ?_ ?_
      · intro q
        rw [hspfI]
        simp
      · rw [hsprevI, if_pos rfl]
        rfl
      · intro k2 hg2 _
        exact absurd hg2 hg

theorem C4_ttl_expiry_witness :
    Inv emptyStore ∧
    emptyStore.prompt_to_entry_id (clean "temp key") = none ∧
    emptyStore.cache_entries.lookup "e1" = none ∧
    ((0 : ℚ) + 1 < 2) ∧
    ((decide_cache 2 "temp key" (set_in_cache 0 "e1" "temp key" "short-lived" 1 emptyStore)).1
        = CacheDecision.mk HitType.miss none 0 0 ∧
      ((decide_cache 2 "temp key"
          (set_in_cache 0 "e1" "temp key" "short-lived" 1 emptyStore)).2).cache_entries.lookup "e1"
        = none ∧
      (∀ v : Entry, ¬ (("e1", v) ∈ ((decide_cache 2 "temp key"
          (set_in_cache 0 "e1" "temp key" "short-lived" 1 emptyStore)).2).cache_entries)) ∧
      (∀ q, ((decide_cache 2 "temp key"
          (set_in_cache 0 "e1" "temp key" "short-lived" 1 emptyStore)).2).prompt_to_entry_id q
        ≠ some "e1") ∧
      ((decide_cache 2 "temp key"
          (set_in_cache 0 "e1" "temp key" "short-lived" 1 emptyStore)).2).entry_id_to_prompts "e1"
        = none ∧
      (∀ k, ((decide_cache 2 "temp key"
          (set_in_cache 0 "e1" "temp key" "short-lived" 1 emptyStore)).2).intent_to_entry_id k
        ≠ some "e1") ∧
      ((decide_cache 2 "temp key"
          (set_in_cache 0 "e1" "temp key" "short-lived" 1 emptyStore)).2).entry_id_to_intents "e1"
        = none) :=
  ⟨inv_empty, rfl, rfl,
   of_decide_eq_true (by with_unfolding_all rfl),
   C4_ttl_expiry 0 2 1 "e1" "temp key" "short-lived" emptyStore inv_empty rfl rfl
     (of_decide_eq_true (by with_unfolding_all rfl))⟩

/-- Store states reachable from the empty store by write and decide requests,
the operation set named in claim C6. -/
inductive Reach : Store → Prop where
  | empty : Reach emptyStore
  | write (s : Store) (now : ℚ) (id p response : String) (ttl : ℚ) :
      Reach s → Reach (set_in_cache now id p response ttl s)
  | decideStep (s : Store) (now : ℚ) (p : String) :
      Reach s → Reach ((decide_cache now p s).2)

/-- Claim C6: capacity invariant. Every store reachable by any sequence of
writes and decisions from the empty store holds at most MAX_CACHE_SIZE
entries; in particular the bound holds after every completed write. -/
theorem C6_capacity_invariant (s : Store) (h : Reach s) :
    s.cache_entries.length ≤ MAX_CACHE_SIZE := by
  induction h with
  | empty => simp [emptyStore]
  | write s now id p response ttl _ ih =>
    exact set_cap_length_le MAX_CACHE_SIZE now id p response ttl s ih
  | decideStep s now p _ ih =>
    exact Nat.le_trans (decideStep_length_le now p s) ih

theorem C6_capacity_invariant_witness :
    Reach (set_in_cache 0 "e1" "a" "resp" 1 emptyStore) ∧
    (set_in_cache 0 "e1" "a" "resp" 1 emptyStore).cache_entries.length ≤ MAX_CACHE_SIZE :=
  ⟨Reach.write emptyStore 0 "e1" "a" "resp" 1 Reach.empty,
   C6_capacity_invariant _ (Reach.write emptyStore 0 "e1" "a" "resp" 1 Reach.empty)⟩

theorem C9_evict_absent_noop_witness :
    Inv emptyStore ∧ emptyStore.cache_entries.lookup "e9" = none ∧
    evict_entry "e9" emptyStore = emptyStore ∧
    evict_entry "e9" (evict_entry "e9" emptyStore) = evict_entry "e9" emptyStore :=
  ⟨inv_empty, rfl,
    (C9_evict_absent_noop emptyStore "e9").1 inv_empty rfl,
    (C9_evict_absent_noop emptyStore "e9").2⟩

end Evicta
